import Mathlib

/-!
Verification of the WeaveDI migration tooling.

This file gives a shallow embedding of the two Python scripts of the
repository and proves properties of them:

* `src/convert_to_logmacro.py` — a source-tree migration tool that rewrites
  legacy `print(...)` diagnostic calls into structured `#log...(...)` calls
  by a fixed, ordered list of sequential regular-expression substitutions,
  and injects an `import LogMacro` declaration after `import Foundation`.
  File contents are modelled as `List Char`; each regex of the script's
  `conversions` table is modelled by a `Rule` together with `tryMatch`,
  and Python's `re.sub` (left-to-right, non-overlapping, continue after the
  replacement) is modelled by `reSub`.

* `src/Scripts/plot_bench.py` — a benchmark-CSV summarizer: rows are grouped
  by their `count` field (a Python dict in insertion order), each group is
  sorted ascending by `debounce_ms` (Python's stable sort), and the text
  summary prints one line of `debounce → p95` pairs per group, groups taken
  in ascending order of `count`.
-/

namespace WeaveDI

/-- File contents, argument texts, patterns: lists of characters. -/
abbrev Str := List Char

/-- Match a literal pattern against the front of the input; on success
return the rest of the input.  This is the primitive from which all of the
script's regex matching is modelled. -/
def stripP : Str → Str → Option Str
  | [], s => some s
  | _ :: _, [] => none
  | p :: ps, c :: cs => if p = c then stripP ps cs else none

/-- Python's `pattern in content` substring test. -/
def containsSub (p : Str) : Str → Bool
  | [] => (stripP p []).isSome
  | c :: cs => (stripP p (c :: cs)).isSome || containsSub p cs

/-- `(stripP p s).isSome`: the pattern is a leading segment of `s`. -/
def isPre (p s : Str) : Bool := (stripP p s).isSome

/-- The longest leading run of non-`"` characters: the text the lazy group
`[^"]*?` can range over before the first double quote. -/
def takeNotQ : Str → Str
  | [] => []
  | c :: cs => if c = '"' then [] else c :: takeNotQ cs

/-- The input from its first `"` on (empty if there is none). -/
def dropNotQ : Str → Str
  | [] => []
  | c :: cs => if c = '"' then c :: cs else dropNotQ cs

/-- The longest leading run of non-`)` characters (for `[^)]+?`). -/
def takeNotC : Str → Str
  | [] => []
  | c :: cs => if c = ')' then [] else c :: takeNotC cs

/-- The input from its first `)` on (empty if there is none). -/
def dropNotC : Str → Str
  | [] => []
  | c :: cs => if c = ')' then c :: cs else dropNotC cs

/-- First occurrence of `k`: `s = a ++ k ++ b` with `k` not occurring
earlier.  Mirrors how the lazy group `([^"]*?)` before a literal keyword
binds at the keyword's first occurrence. -/
def splitFirst (k : Str) : Str → Option (Str × Str)
  | [] =>
    match stripP k [] with
    | some r => some ([], r)
    | none => none
  | c :: cs =>
    match stripP k (c :: cs) with
    | some rest => some ([], rest)
    | none =>
      match splitFirst k cs with
      | some (a, b) => some (c :: a, b)
      | none => none

/-- Severities of the structured logging facility. -/
inductive Sev
  | info
  | warning
  | error
  | debug
deriving DecidableEq

/-- The structured call head emitted for each severity. -/
def sevStr : Sev → Str
  | .info => ("#logInfo").toList
  | .warning => ("#logWarning").toList
  | .error => ("#logError").toList
  | .debug => ("#logDebug").toList

/-- `print\(` -- the literal head shared by every conversion pattern. -/
def pLit : Str := ("print(").toList

/-- `print\("` -- the head of every quoted-literal pattern. -/
def pqLit : Str := ("print(\"").toList

/-- `print\("""` -- the head of the block-string pattern. -/
def tripleLit : Str := ("print(\"\"\"").toList

/-- One entry of the script's `conversions` table
(`src/convert_to_logmacro.py`, lines 27-71).

* `marker m sev` is `print\("M([^"]*?)"\)` → `#logSev("M\1")`
  (with `m = []` it is the generic literal fallback of line 67);
* `keyword k` is `print\("([^"]*?)K([^"]*?)"\)` → `#logInfo("\1K\2")`;
* `tripleQuote` is `print\("""` → `#logInfo("""` (line 64);
* `anyArg` is `print\(([^)]+?)\)` → `#logDebug(\1)` (line 70). -/
inductive Rule
  | marker (m : Str) (sev : Sev)
  | keyword (k : Str)
  | tripleQuote
  | anyArg

/-- Try to match one rule at the current position.  On success return the
replacement text and the input remaining after the matched span.  The lazy
groups `[^"]*?` / `[^)]+?` deterministically end at the first `"` / `)`,
which is what `takeNotQ` / `takeNotC` compute. -/
def tryMatch : Rule → Str → Option (Str × Str)
  | .marker m sev, s =>
    match stripP (pqLit ++ m) s with
    | none => none
    | some r =>
      match dropNotQ r with
      | '"' :: ')' :: rest =>
        some (sevStr sev ++ '(' :: '"' :: (m ++ takeNotQ r ++ ['"', ')']), rest)
      | _ => none
  | .keyword k, s =>
    match stripP pqLit s with
    | none => none
    | some r =>
      match splitFirst k (takeNotQ r) with
      | none => none
      | some _ =>
        match dropNotQ r with
        | '"' :: ')' :: rest =>
          some (sevStr .info ++ '(' :: '"' :: (takeNotQ r ++ ['"', ')']), rest)
        | _ => none
  | .tripleQuote, s =>
    match stripP tripleLit s with
    | none => none
    | some rest => some (sevStr .info ++ ['(', '"', '"', '"'], rest)
  | .anyArg, s =>
    match stripP pLit s with
    | none => none
    | some r =>
      match takeNotC r with
      | [] => none
      | a :: args =>
        match dropNotC r with
        | [] => none
        | _ :: rest => some (("#logDebug(").toList ++ (a :: args) ++ [')'], rest)

/-- `re.sub` for one rule, fuelled: scan left to right, replace each match
and continue after it, copy unmatched characters.  Each match consumes at
least the pattern head, so fuel `s.length` always suffices. -/
def reSubF (r : Rule) : Nat → Str → Str
  | _, [] => []
  | 0, s => s
  | fuel + 1, c :: cs =>
    match tryMatch r (c :: cs) with
    | some (rep, rest) => rep ++ reSubF r fuel rest
    | none => c :: reSubF r fuel cs

/-- `re.sub(pattern, replacement, content)` for one conversion rule. -/
def reSub (r : Rule) (s : Str) : Str := reSubF r s.length s

/-- The script's ordered `conversions` table
(`src/convert_to_logmacro.py`, lines 27-71), in source order. -/
def conversions : List Rule :=
  [ .marker (("✅").toList) .info
  , .marker (("🎉").toList) .info
  , .marker (("📊").toList) .info
  , .marker (("🔍").toList) .info
  , .marker (("❌").toList) .error
  , .marker (("⚠️").toList) .warning
  , .marker (("🚨").toList) .error
  , .marker (("🎨").toList) .info
  , .marker (("🔄").toList) .info
  , .marker (("💡").toList) .info
  , .keyword (("완료").toList)
  , .keyword (("시작").toList)
  , .keyword (("생성").toList)
  , .tripleQuote
  , .marker [] .debug
  , .anyArg ]

/-- Apply the substitution passes in table order (the `for pattern,
replacement in conversions` loop, lines 74-75). -/
def applyAll (rs : List Rule) (s : Str) : Str := rs.foldl (fun t r => reSub r t) s

/-- `import Foundation\n` — the anchor whose every occurrence triggers the
declaration insertion (line 21). -/
def anchorLit : Str := ("import Foundation\n").toList

/-- `import LogMacro` — the guard substring of line 19. -/
def ilLit : Str := ("import LogMacro").toList

/-- The replacement of line 22:
`import Foundation\n` → `import Foundation\nimport LogMacro\n`. -/
def anchorRep : Str := ("import Foundation\nimport LogMacro\n").toList

/-- `re.sub` for the anchor pattern (fuelled like `reSubF`). -/
def subAnchorF : Nat → Str → Str
  | _, [] => []
  | 0, s => s
  | fuel + 1, c :: cs =>
    match stripP anchorLit (c :: cs) with
    | some rest => anchorRep ++ subAnchorF fuel rest
    | none => c :: subAnchorF fuel cs

/-- `re.sub(r'(import Foundation\n)', r'\1import LogMacro\n', content)`. -/
def subAnchor (s : Str) : Str := subAnchorF s.length s

/-- Step 1 of the script (lines 19-24): if `import LogMacro` does not occur
in the content, insert it after every `import Foundation` line. -/
def addImport (s : Str) : Str :=
  if containsSub ilLit s then s else subAnchor s

/-- The whole per-file text transformation of `convert_file_to_logmacro`
(lines 10-83): dependency injection followed by the sixteen substitution
passes in table order. -/
def convertContent (s : Str) : Str := applyAll conversions (addImport s)

/-- `convert_file_to_logmacro` as observed by the caller: the resulting
content together with the changed flag (`True` iff the file was written,
lines 77-83). -/
def convert_file (s : Str) : Str × Bool :=
  (convertContent s, decide (convertContent s ≠ s))

/-- The per-file loop of `main` (lines 98-106), with each discovered file
modelled by `some content` if it decodes as text and `none` if reading it
raises a decode error.  Python propagates the exception out of
`convert_file_to_logmacro`, so the walk stops at the first `none`: the
result is the changed flags of the files processed so far together with a
completion flag. -/
def processFiles : List (Option Str) → List Bool × Bool
  | [] => ([], true)
  | none :: _ => ([], false)
  | some c :: rest =>
    let r := processFiles rest
    ((convert_file c).2 :: r.1, r.2)

/-- `main` (lines 85-115): if the root directory is missing it returns
before touching any file (`none`); otherwise it walks the discovered
files. -/
def runMain (rootExists : Bool) (files : List (Option Str)) : Option (List Bool × Bool) :=
  if rootExists then some (processFiles files) else none

/-- Modelled from the spec (section 4.1): the reference severity
classifier, an ordered rule table evaluated top to bottom with
first-match-wins semantics, in the order of the reference rule list
(which is the order of the script's `conversions` table).  Used to state
refinement theorems about the substitution pipeline. -/
def classifySpec (s : Str) : Sev :=
  if isPre (("✅").toList) s then .info
  else if isPre (("🎉").toList) s then .info
  else if isPre (("📊").toList) s then .info
  else if isPre (("🔍").toList) s then .info
  else if isPre (("❌").toList) s then .error
  else if isPre (("⚠️").toList) s then .warning
  else if isPre (("🚨").toList) s then .error
  else if isPre (("🎨").toList) s then .info
  else if isPre (("🔄").toList) s then .info
  else if isPre (("💡").toList) s then .info
  else if containsSub (("완료").toList) s then .info
  else if containsSub (("시작").toList) s then .info
  else if containsSub (("생성").toList) s then .info
  else .debug

/-! ## The benchmark summarizer (`src/Scripts/plot_bench.py`) -/

/-- One parsed CSV row (`load_csv`): `debounce_ms` and `count` are parsed as
ints; the latency fields are parsed as floats and only carried around, so
they are modelled by an arbitrary payload type `α`. -/
structure Row (α : Type) where
  debounce : Int
  count : Int
  p50 : α
  p95 : α
  p99 : α
deriving DecidableEq

/-- `g.setdefault(r['count'], []).append(r)`: a Python dict modelled as an
association list in key insertion order; a new key goes to the end, an
existing key has the row appended to its group. -/
def appendRow {α : Type} (g : List (Int × List (Row α))) (r : Row α) :
    List (Int × List (Row α)) :=
  match g with
  | [] => [(r.count, [r])]
  | (k, rs) :: g2 =>
    if k = r.count then (k, rs ++ [r]) :: g2 else (k, rs) :: appendRow g2 r

/-- Stable insertion for `sorted(..., key=lambda x: x['debounce'])`. -/
def insDeb {α : Type} (r : Row α) : List (Row α) → List (Row α)
  | [] => [r]
  | x :: xs => if r.debounce ≤ x.debounce then r :: x :: xs else x :: insDeb r xs

/-- Python's stable ascending sort by the `debounce` field. -/
def sortByDebounce {α : Type} (l : List (Row α)) : List (Row α) := l.foldr insDeb []

/-- `group_by_count` (lines 34-40): group rows by `count`, then sort each
group ascending by `debounce_ms`. -/
def group_by_count {α : Type} (rows : List (Row α)) : List (Int × List (Row α)) :=
  (rows.foldl appendRow []).map (fun kg => (kg.1, sortByDebounce kg.2))

/-- Stable insertion for `sorted(groups.items())` (keys are distinct, so
only the key part of the tuple comparison ever decides). -/
def insKey {α : Type} (e : Int × α) : List (Int × α) → List (Int × α)
  | [] => [e]
  | x :: xs => if e.1 ≤ x.1 then e :: x :: xs else x :: insKey e xs

/-- Ascending sort of the groups by their `count` key. -/
def sortByKey {α : Type} (l : List (Int × α)) : List (Int × α) := l.foldr insKey []

/-- `text_summary` (lines 42-46): one line per group, in ascending key
order; each line is the group's list of `debounce → p95` pairs.  A line is
modelled as the group key together with that list of pairs. -/
def text_summary {α : Type} (groups : List (Int × List (Row α))) :
    List (Int × List (Int × α)) :=
  (sortByKey groups).map (fun kg => (kg.1, kg.2.map (fun r => (r.debounce, r.p95))))

/-- The summarizing pipeline of `main` (lines 84-85). -/
def benchSummary {α : Type} (rows : List (Row α)) : List (Int × List (Int × α)) :=
  text_summary (group_by_count rows)

/-- A concrete bench CSV with two `count` groups of three `debounce_ms`
rows each (the payload stands in for the parsed float fields). -/
def demoRows : List (Row Int) :=
  [ ⟨50, 1000, 11, 12, 13⟩
  , ⟨10, 5000, 21, 22, 23⟩
  , ⟨100, 1000, 31, 32, 33⟩
  , ⟨50, 5000, 41, 42, 43⟩
  , ⟨10, 1000, 51, 52, 53⟩
  , ⟨100, 5000, 61, 62, 63⟩ ]

/-- The rows stored under key `k` of an association-list dict (empty when
the key is absent).  Proof-side accessor for `appendRow`. -/
def entryOf {α : Type} (k : Int) : List (Int × List (Row α)) → List (Row α)
  | [] => []
  | (k2, rs) :: g2 => if k2 = k then rs else entryOf k g2

/-- The keys of an association-list dict, in insertion order. -/
def keysOf {α : Type} (g : List (Int × List (Row α))) : List Int := g.map Prod.fst

/-! ## Lemmas about the matching primitives -/

theorem stripP_eq_some {p s r : Str} : stripP p s = some r ↔ s = p ++ r := by
  induction p generalizing s with
  | nil =>
    simp [stripP]
  | cons a ps ih =>
    cases s with
    | nil => simp [stripP]
    | cons c cs =>
      by_cases h : a = c
      · subst h
        simp [stripP, ih]
      · simp only [stripP, if_neg h, List.cons_append]
        constructor
        · intro hc
          exact absurd hc (by simp)
        · intro hc
          exact absurd (List.head_eq_of_cons_eq hc).symm h

theorem stripP_self {p r : Str} : stripP p (p ++ r) = some r :=
  stripP_eq_some.2 rfl

theorem stripP_append {p q s : Str} :
    stripP (p ++ q) s = (stripP p s).bind (fun t => stripP q t) := by
  induction p generalizing s with
  | nil => simp [stripP]
  | cons a ps ih =>
    cases s with
    | nil => simp [stripP]
    | cons c cs =>
      by_cases h : a = c
      · subst h
        simp [stripP, ih]
      · simp [stripP, if_neg h]

theorem containsSub_cons_none {p : Str} {c : Char} {t : Str}
    (h : stripP p (c :: t) = none) :
    containsSub p (c :: t) = containsSub p t := by
  simp [containsSub, h]

theorem containsSub_append_peel {d : Char} {p2 a t : Str}
    (ha : ∀ x ∈ a, x ≠ d) :
    containsSub (d :: p2) (a ++ t) = containsSub (d :: p2) t := by
  induction a with
  | nil => rfl
  | cons x xs ih =>
    have hx : x ≠ d := ha x (by simp)
    have hs : stripP (d :: p2) (x :: (xs ++ t)) = none := by
      simp only [stripP, if_neg (show ¬ d = x from fun hh => hx hh.symm)]
    rw [List.cons_append, containsSub_cons_none hs, ih (fun y hy => ha y (by simp [hy]))]

theorem containsSub_head_mem {d : Char} {p2 s : Str}
    (h : containsSub (d :: p2) s = true) : d ∈ s := by
  induction s with
  | nil => simp [containsSub, stripP] at h
  | cons c cs ih =>
    simp only [containsSub, Bool.or_eq_true] at h
    rcases h with h | h
    · cases hdc : stripP (d :: p2) (c :: cs) with
      | none => simp [hdc] at h
      | some r =>
          have := stripP_eq_some.1 hdc
          simp [List.cons_eq_cons.1 (by simpa using this) |>.1]
    · exact List.mem_cons_of_mem _ (ih h)

theorem containsSub_false_of_not_mem {d : Char} {p2 s : Str}
    (h : d ∉ s) : containsSub (d :: p2) s = false := by
  cases hc : containsSub (d :: p2) s with
  | false => rfl
  | true => exact absurd (containsSub_head_mem hc) h

theorem takeNotQ_append {s t : Str} (hs : ∀ x ∈ s, x ≠ '"') :
    takeNotQ (s ++ '"' :: t) = s := by
  induction s with
  | nil => simp [takeNotQ]
  | cons c cs ih =>
    have : c ≠ '"' := hs c (by simp)
    simp [takeNotQ, this, ih (fun y hy => hs y (by simp [hy]))]

theorem dropNotQ_append {s t : Str} (hs : ∀ x ∈ s, x ≠ '"') :
    dropNotQ (s ++ '"' :: t) = '"' :: t := by
  induction s with
  | nil => simp [dropNotQ]
  | cons c cs ih =>
    have : c ≠ '"' := hs c (by simp)
    simp [dropNotQ, this, ih (fun y hy => hs y (by simp [hy]))]

theorem takeNotC_append {s t : Str} (hs : ∀ x ∈ s, x ≠ ')') :
    takeNotC (s ++ ')' :: t) = s := by
  induction s with
  | nil => simp [takeNotC]
  | cons c cs ih =>
    have : c ≠ ')' := hs c (by simp)
    simp [takeNotC, this, ih (fun y hy => hs y (by simp [hy]))]

theorem dropNotC_append {s t : Str} (hs : ∀ x ∈ s, x ≠ ')') :
    dropNotC (s ++ ')' :: t) = ')' :: t := by
  induction s with
  | nil => simp [dropNotC]
  | cons c cs ih =>
    have : c ≠ ')' := hs c (by simp)
    simp [dropNotC, this, ih (fun y hy => hs y (by simp [hy]))]

theorem dropNotQ_length {s : Str} : (dropNotQ s).length ≤ s.length := by
  induction s with
  | nil => simp [dropNotQ]
  | cons c cs ih =>
    by_cases h : c = '"'
    · simp [dropNotQ, h]
    · simp only [dropNotQ, if_neg h]
      exact le_trans ih (by simp)

theorem dropNotC_length {s : Str} : (dropNotC s).length ≤ s.length := by
  induction s with
  | nil => simp [dropNotC]
  | cons c cs ih =>
    by_cases h : c = ')'
    · simp [dropNotC, h]
    · simp only [dropNotC, if_neg h]
      exact le_trans ih (by simp)

theorem splitFirst_eq {k s a b : Str} (h : splitFirst k s = some (a, b)) :
    s = a ++ k ++ b := by
  induction s generalizing a b with
  | nil =>
    simp only [splitFirst] at h
    cases hk : stripP k [] with
    | none => simp [hk] at h
    | some r =>
      rw [hk] at h
      obtain ⟨rfl, rfl⟩ := by simpa using h
      have := stripP_eq_some.1 hk
      simp [this.symm]
  | cons c cs ih =>
    simp only [splitFirst] at h
    cases hk : stripP k (c :: cs) with
    | some r =>
      rw [hk] at h
      obtain ⟨rfl, rfl⟩ := by simpa using h
      have := stripP_eq_some.1 hk
      simp [this]
    | none =>
      rw [hk] at h
      cases hsf : splitFirst k cs with
      | none => simp [hsf] at h
      | some ab =>
        rw [hsf] at h
        obtain ⟨a2, b2⟩ := ab
        obtain ⟨rfl, rfl⟩ := by simpa using h
        simp [ih hsf]

theorem splitFirst_isSome_iff {k s : Str} :
    (splitFirst k s).isSome = containsSub k s := by
  induction s with
  | nil =>
    simp only [splitFirst, containsSub]
    cases hk : stripP k [] <;> simp [hk]
  | cons c cs ih =>
    simp only [splitFirst, containsSub]
    cases hk : stripP k (c :: cs) with
    | some r => simp
    | none =>
      simp only [Bool.false_or, hk, Option.isSome_none]
      cases hsf : splitFirst k cs with
      | none => simpa [hsf] using ih.symm
      | some ab =>
        obtain ⟨a2, b2⟩ := ab
        simpa [hsf] using ih.symm

/-! ## Lemmas about one substitution pass -/

theorem tryMatch_nil {r : Rule} : tryMatch r [] = none := by
  cases r <;> rfl

theorem tryMatch_ne_p {r : Rule} {c : Char} {cs : Str} (h : c ≠ 'p') :
    tryMatch r (c :: cs) = none := by
  have hp : ∀ q : Str, stripP ('p' :: q) (c :: cs) = none := by
    intro q
    simp only [stripP, if_neg (show ¬ 'p' = c from fun hh => h hh.symm)]
  cases r with
  | marker m sev =>
    show (match stripP (pqLit ++ m) (c :: cs) with
      | none => none
      | some r =>
        match dropNotQ r with
        | '"' :: ')' :: rest =>
          some (sevStr sev ++ '(' :: '"' :: (m ++ takeNotQ r ++ ['"', ')']), rest)
        | _ => none) = none
    rw [show pqLit ++ m = 'p' :: (("rint(\"").toList ++ m) from rfl, hp]
  | keyword k =>
    show (match stripP pqLit (c :: cs) with
      | none => none
      | some r =>
        match splitFirst k (takeNotQ r) with
        | none => none
        | some _ =>
          match dropNotQ r with
          | '"' :: ')' :: rest =>
            some (sevStr .info ++ '(' :: '"' :: (takeNotQ r ++ ['"', ')']), rest)
          | _ => none) = none
    rw [show pqLit = 'p' :: ("rint(\"").toList from rfl, hp]
  | tripleQuote =>
    show (match stripP tripleLit (c :: cs) with
      | none => none
      | some rest => some (sevStr .info ++ ['(', '"', '"', '"'], rest)) = none
    rw [show tripleLit = 'p' :: ("rint(\"\"\"").toList from rfl, hp]
  | anyArg =>
    show (match stripP pLit (c :: cs) with
      | none => none
      | some r =>
        match takeNotC r with
        | [] => none
        | a :: args =>
          match dropNotC r with
          | [] => none
          | _ :: rest => some (("#logDebug(").toList ++ (a :: args) ++ [')'], rest)) = none
    rw [show pLit = 'p' :: ("rint(").toList from rfl, hp]

theorem tryMatch_some_pre {r : Rule} {s : Str} {x : Str × Str}
    (h : tryMatch r s = some x) : (stripP pLit s).isSome = true := by
  cases r with
  | marker m sev =>
    simp only [tryMatch] at h
    cases hm : stripP (pqLit ++ m) s with
    | none => rw [hm] at h; exact absurd h (by simp)
    | some r1 =>
      have := stripP_eq_some.1 hm
      rw [show (pqLit ++ m) ++ r1 = pLit ++ ('"' :: (m ++ r1)) from rfl] at this
      rw [this, stripP_self]
      rfl
  | keyword k =>
    simp only [tryMatch] at h
    cases hm : stripP pqLit s with
    | none => rw [hm] at h; exact absurd h (by simp)
    | some r1 =>
      have := stripP_eq_some.1 hm
      rw [show pqLit ++ r1 = pLit ++ ('"' :: r1) from rfl] at this
      rw [this, stripP_self]
      rfl
  | tripleQuote =>
    simp only [tryMatch] at h
    cases hm : stripP tripleLit s with
    | none => rw [hm] at h; exact absurd h (by simp)
    | some r1 =>
      have := stripP_eq_some.1 hm
      rw [show tripleLit ++ r1 = pLit ++ ('"' :: '"' :: '"' :: r1) from rfl] at this
      rw [this, stripP_self]
      rfl
  | anyArg =>
    simp only [tryMatch] at h
    cases hm : stripP pLit s with
    | none => rw [hm] at h; exact absurd h (by simp)
    | some r1 => simp [hm]

theorem tryMatch_length {r : Rule} {s rep rest : Str}
    (h : tryMatch r s = some (rep, rest)) : rest.length < s.length := by
  cases r with
  | marker m sev =>
    simp only [tryMatch] at h
    split at h
    all_goals try (exfalso; exact Option.noConfusion h)
    rename_i r1 hm
    split at h
    all_goals try (exfalso; exact Option.noConfusion h)
    rename_i rest3 hd
    simp only [Option.some.injEq, Prod.mk.injEq] at h
    have hlen : s.length = (pqLit ++ m).length + r1.length := by
      rw [stripP_eq_some.1 hm, List.length_append]
    rw [List.length_append] at hlen
    have hdl : (dropNotQ r1).length ≤ r1.length := dropNotQ_length
    rw [hd] at hdl
    simp only [List.length_cons] at hdl
    rw [← h.2]
    have h7 : pqLit.length = 7 := rfl
    omega
  | keyword k =>
    simp only [tryMatch] at h
    split at h
    all_goals try (exfalso; exact Option.noConfusion h)
    rename_i r1 hm
    split at h
    all_goals try (exfalso; exact Option.noConfusion h)
    split at h
    all_goals try (exfalso; exact Option.noConfusion h)
    rename_i rest3 hd
    simp only [Option.some.injEq, Prod.mk.injEq] at h
    have hlen : s.length = pqLit.length + r1.length := by
      rw [stripP_eq_some.1 hm, List.length_append]
    have hdl : (dropNotQ r1).length ≤ r1.length := dropNotQ_length
    rw [hd] at hdl
    simp only [List.length_cons] at hdl
    rw [← h.2]
    have h7 : pqLit.length = 7 := rfl
    omega
  | tripleQuote =>
    simp only [tryMatch] at h
    split at h
    all_goals try (exfalso; exact Option.noConfusion h)
    rename_i r1 hm
    simp only [Option.some.injEq, Prod.mk.injEq] at h
    have hlen : s.length = tripleLit.length + r1.length := by
      rw [stripP_eq_some.1 hm, List.length_append]
    rw [← h.2]
    have h10 : tripleLit.length = 9 := rfl
    omega
  | anyArg =>
    simp only [tryMatch] at h
    split at h
    all_goals try (exfalso; exact Option.noConfusion h)
    rename_i r1 hm
    split at h
    all_goals try (exfalso; exact Option.noConfusion h)
    split at h
    all_goals try (exfalso; exact Option.noConfusion h)
    rename_i c2 rest4 hd
    simp only [Option.some.injEq, Prod.mk.injEq] at h
    have hlen : s.length = pLit.length + r1.length := by
      rw [stripP_eq_some.1 hm, List.length_append]
    have hdl : (dropNotC r1).length ≤ r1.length := dropNotC_length
    rw [hd] at hdl
    simp only [List.length_cons] at hdl
    rw [← h.2]
    have h6 : pLit.length = 6 := rfl
    omega

theorem reSubF_fuel {r : Rule} :
    ∀ (f : Nat) (s : Str), s.length ≤ f → reSubF r f s = reSubF r s.length s := by
  intro f
  induction f using Nat.strong_induction_on with
  | _ f ih =>
    intro s hs
    cases f with
    | zero =>
      have : s = [] := by
        cases s with
        | nil => rfl
        | cons c cs => simp at hs
      subst this
      rfl
    | succ f2 =>
      cases s with
      | nil => rfl
      | cons c cs =>
        have hcs : cs.length ≤ f2 := by simpa using hs
        simp only [List.length_cons]
        show reSubF r (f2 + 1) (c :: cs) = reSubF r (cs.length + 1) (c :: cs)
        cases hm : tryMatch r (c :: cs) with
        | none =>
          simp only [reSubF, hm]
          rw [ih f2 (Nat.lt_succ_self _) cs hcs]
        | some x =>
          obtain ⟨rep, rest⟩ := x
          have hrl : rest.length < cs.length + 1 := by
            simpa using tryMatch_length hm
          simp only [reSubF, hm]
          rw [ih f2 (Nat.lt_succ_self _) rest (by omega),
            ih cs.length (by omega) rest (by omega)]

theorem reSub_cons_none {r : Rule} {c : Char} {cs : Str}
    (h : tryMatch r (c :: cs) = none) :
    reSub r (c :: cs) = c :: reSub r cs := by
  show reSubF r (c :: cs).length (c :: cs) = _
  simp only [List.length_cons, reSubF, h]
  rfl

theorem reSub_eq_match {r : Rule} {s rep rest : Str}
    (h : tryMatch r s = some (rep, rest)) :
    reSub r s = rep ++ reSub r rest := by
  cases s with
  | nil => rw [tryMatch_nil] at h; exact absurd h (by simp)
  | cons c cs =>
    show reSubF r (c :: cs).length (c :: cs) = _
    simp only [List.length_cons, reSubF, h]
    rw [reSubF_fuel cs.length rest (by simpa using Nat.lt_succ_iff.1 (tryMatch_length h))]
    rfl

theorem reSub_id_of_not_contains {r : Rule} {s : Str}
    (h : containsSub pLit s = false) : reSub r s = s := by
  induction s with
  | nil => rfl
  | cons c cs ih =>
    simp only [containsSub, Bool.or_eq_false_iff] at h
    have hm : tryMatch r (c :: cs) = none := by
      cases hm : tryMatch r (c :: cs) with
      | none => rfl
      | some x =>
        have := tryMatch_some_pre hm
        rw [this] at h
        exact absurd h.1 (by simp)
    rw [reSub_cons_none hm, ih h.2]

theorem reSub_append_pfree {r : Rule} {a t : Str} (ha : ∀ x ∈ a, x ≠ 'p') :
    reSub r (a ++ t) = a ++ reSub r t := by
  induction a with
  | nil => rfl
  | cons c cs ih =>
    have hc : c ≠ 'p' := ha c (by simp)
    rw [List.cons_append, reSub_cons_none (tryMatch_ne_p hc),
      ih (fun y hy => ha y (by simp [hy]))]
    rfl

theorem applyAll_cons {r : Rule} {rs : List Rule} {t : Str} :
    applyAll (r :: rs) t = applyAll rs (reSub r t) := rfl

theorem applyAll_id {rs : List Rule} {t : Str}
    (h : containsSub pLit t = false) : applyAll rs t = t := by
  induction rs with
  | nil => rfl
  | cons r rs ih =>
    rw [applyAll_cons, reSub_id_of_not_contains h, ih]

theorem applyAll_append_pfree {rs : List Rule} {a t : Str}
    (ha : ∀ x ∈ a, x ≠ 'p') :
    applyAll rs (a ++ t) = a ++ applyAll rs t := by
  induction rs generalizing t with
  | nil => rfl
  | cons r rs ih =>
    rw [applyAll_cons, reSub_append_pfree ha, ih]
    rfl

/-! ## Lemmas about the anchor substitution (dependency injection) -/

theorem subAnchorF_fuel :
    ∀ (f : Nat) (s : Str), s.length ≤ f → subAnchorF f s = subAnchorF s.length s := by
  intro f
  induction f using Nat.strong_induction_on with
  | _ f ih =>
    intro s hs
    cases f with
    | zero =>
      have : s = [] := by
        cases s with
        | nil => rfl
        | cons c cs => simp at hs
      subst this
      rfl
    | succ f2 =>
      cases s with
      | nil => rfl
      | cons c cs =>
        have hcs : cs.length ≤ f2 := by simpa using hs
        simp only [List.length_cons]
        show subAnchorF (f2 + 1) (c :: cs) = subAnchorF (cs.length + 1) (c :: cs)
        cases hm : stripP anchorLit (c :: cs) with
        | none =>
          simp only [subAnchorF, hm]
          rw [ih f2 (Nat.lt_succ_self _) cs hcs]
        | some rest =>
          have hrl : rest.length < cs.length + 1 := by
            have := stripP_eq_some.1 hm
            have : (c :: cs).length = anchorLit.length + rest.length := by
              rw [this]; simp
            simp only [List.length_cons] at this
            have h18 : anchorLit.length = 18 := rfl
            omega
          simp only [subAnchorF, hm]
          rw [ih f2 (Nat.lt_succ_self _) rest (by omega),
            ih cs.length (by omega) rest (by omega)]

theorem subAnchor_cons_none {c : Char} {cs : Str}
    (h : stripP anchorLit (c :: cs) = none) :
    subAnchor (c :: cs) = c :: subAnchor cs := by
  show subAnchorF (c :: cs).length (c :: cs) = _
  simp only [List.length_cons, subAnchorF, h]
  rfl

theorem subAnchor_eq_match {s rest : Str}
    (h : stripP anchorLit s = some rest) :
    subAnchor s = anchorRep ++ subAnchor rest := by
  cases s with
  | nil => exact absurd (stripP_eq_some.1 h) (by simp [anchorLit])
  | cons c cs =>
    show subAnchorF (c :: cs).length (c :: cs) = _
    simp only [List.length_cons, subAnchorF, h]
    have hrl : rest.length ≤ cs.length := by
      have h2 : (c :: cs).length = anchorLit.length + rest.length := by
        rw [stripP_eq_some.1 h]; simp
      simp only [List.length_cons] at h2
      have h18 : anchorLit.length = 18 := rfl
      omega
    rw [subAnchorF_fuel cs.length rest hrl]
    rfl

theorem subAnchor_id_of_not_contains {s : Str}
    (h : containsSub anchorLit s = false) : subAnchor s = s := by
  induction s with
  | nil => rfl
  | cons c cs ih =>
    simp only [containsSub, Bool.or_eq_false_iff] at h
    have hm : stripP anchorLit (c :: cs) = none := by
      cases hm : stripP anchorLit (c :: cs) with
      | none => rfl
      | some x => rw [hm] at h; exact absurd h.1 (by simp)
    rw [subAnchor_cons_none hm, ih h.2]

theorem subAnchor_append_ifree {a t : Str} (ha : ∀ x ∈ a, x ≠ 'i') :
    subAnchor (a ++ t) = a ++ subAnchor t := by
  induction a with
  | nil => rfl
  | cons c cs ih =>
    have hc : c ≠ 'i' := ha c (by simp)
    have hm : stripP anchorLit (c :: (cs ++ t)) = none := by
      rw [show anchorLit = 'i' :: ("mport Foundation\n").toList from rfl]
      simp only [stripP, if_neg (show ¬ 'i' = c from fun hh => hc hh.symm)]
    rw [List.cons_append, subAnchor_cons_none hm,
      ih (fun y hy => ha y (by simp [hy]))]
    rfl


/-! ## Behaviour of each rule at a plain-literal call site -/

theorem no_pLit {t : Str} (ht : 'p' ∉ t) : containsSub pLit t = false := by
  rw [show pLit = 'p' :: ("rint(").toList from rfl]
  exact containsSub_false_of_not_mem ht

theorem no_anchorLit {t : Str} (ht : 'i' ∉ t) : containsSub anchorLit t = false := by
  rw [show anchorLit = 'i' :: ("mport Foundation\n").toList from rfl]
  exact containsSub_false_of_not_mem ht

theorem sevStr_pfree {sev : Sev} : 'p' ∉ sevStr sev := by
  cases sev <;> decide

theorem stripP_not_pre_quote {m s t : Str} (hm : ∀ x ∈ m, x ≠ '"')
    (hns : isPre m s = false) (hs : ∀ x ∈ s, x ≠ '"') :
    stripP m (s ++ '"' :: t) = none := by
  induction m generalizing s with
  | nil => simp [isPre, stripP] at hns
  | cons d m2 ih =>
    cases s with
    | nil =>
      have hd : d ≠ '"' := hm d (by simp)
      simp [stripP, if_neg hd]
    | cons e s2 =>
      by_cases hde : d = e
      · subst hde
        simp only [List.cons_append, stripP, if_pos rfl]
        have hns2 : isPre m2 s2 = false := by
          simp only [isPre, stripP, if_pos rfl] at hns
          exact hns
        exact ih (fun x hx => hm x (by simp [hx])) hns2 (fun x hx => hs x (by simp [hx]))
      · simp [stripP, if_neg hde]

theorem tryMatch_marker_hit {m s2 c : Str} {sev : Sev} (hq : ∀ x ∈ s2, x ≠ '"') :
    tryMatch (.marker m sev) (pqLit ++ m ++ (s2 ++ '"' :: ')' :: c)) =
      some (sevStr sev ++ '(' :: '"' :: (m ++ takeNotQ (s2 ++ '"' :: ')' :: c) ++ ['"', ')']), c) := by
  have h1 : stripP (pqLit ++ m) (pqLit ++ m ++ (s2 ++ '"' :: ')' :: c)) =
      some (s2 ++ '"' :: ')' :: c) := stripP_self
  have hdq : dropNotQ (s2 ++ '"' :: ')' :: c) = '"' :: ')' :: c := dropNotQ_append hq
  simp only [tryMatch, h1, hdq]

theorem tryMatch_marker_miss {m s c : Str} {sev : Sev}
    (hmq : ∀ x ∈ m, x ≠ '"') (hsq : ∀ x ∈ s, x ≠ '"')
    (hns : isPre m s = false) :
    tryMatch (.marker m sev) (pqLit ++ (s ++ '"' :: ')' :: c)) = none := by
  have h1 : stripP (pqLit ++ m) (pqLit ++ (s ++ '"' :: ')' :: c)) = none := by
    rw [stripP_append, stripP_self]
    exact stripP_not_pre_quote hmq hns hsq
  simp only [tryMatch, h1]

theorem tryMatch_keyword_hit {k s c : Str} (hsq : ∀ x ∈ s, x ≠ '"')
    (hk : containsSub k s = true) :
    tryMatch (.keyword k) (pqLit ++ (s ++ '"' :: ')' :: c)) =
      some (sevStr .info ++ '(' :: '"' :: (s ++ ['"', ')']), c) := by
  have h1 : stripP pqLit (pqLit ++ (s ++ '"' :: ')' :: c)) =
      some (s ++ '"' :: ')' :: c) := stripP_self
  have htq : takeNotQ (s ++ '"' :: ')' :: c) = s := takeNotQ_append hsq
  have hdq : dropNotQ (s ++ '"' :: ')' :: c) = '"' :: ')' :: c := dropNotQ_append hsq
  have hsf : (splitFirst k (takeNotQ (s ++ '"' :: ')' :: c))).isSome = true := by
    rw [htq, splitFirst_isSome_iff]
    exact hk
  cases hsf2 : splitFirst k (takeNotQ (s ++ '"' :: ')' :: c)) with
  | none => rw [hsf2] at hsf; exact absurd hsf (by simp)
  | some ab =>
    rw [htq] at hsf2
    simp only [tryMatch, h1, htq, hsf2, hdq]

theorem tryMatch_keyword_miss {k s c : Str} (hsq : ∀ x ∈ s, x ≠ '"')
    (hk : containsSub k s = false) :
    tryMatch (.keyword k) (pqLit ++ (s ++ '"' :: ')' :: c)) = none := by
  have h1 : stripP pqLit (pqLit ++ (s ++ '"' :: ')' :: c)) =
      some (s ++ '"' :: ')' :: c) := stripP_self
  have htq : takeNotQ (s ++ '"' :: ')' :: c) = s := takeNotQ_append hsq
  have hsf : splitFirst k (takeNotQ (s ++ '"' :: ')' :: c)) = none := by
    cases hsf2 : splitFirst k (takeNotQ (s ++ '"' :: ')' :: c)) with
    | none => rfl
    | some ab =>
      have : (splitFirst k (takeNotQ (s ++ '"' :: ')' :: c))).isSome = true := by
        rw [hsf2]; rfl
      rw [splitFirst_isSome_iff, htq, hk] at this
      exact absurd this (by simp)
  simp only [tryMatch, h1, hsf]

theorem tryMatch_triple_missq {s c : Str} (hsq : ∀ x ∈ s, x ≠ '"') :
    tryMatch .tripleQuote (pqLit ++ (s ++ '"' :: ')' :: c)) = none := by
  have h1 : stripP tripleLit (pqLit ++ (s ++ '"' :: ')' :: c)) = none := by
    rw [show tripleLit = pqLit ++ ['"', '"'] from rfl, stripP_append, stripP_self]
    show stripP ['"', '"'] (s ++ '"' :: ')' :: c) = none
    cases s with
    | nil => rfl
    | cons e s2 =>
      have he : e ≠ '"' := hsq e (by simp)
      simp [stripP, if_neg (show ¬ ('"' : Char) = e from fun hh => he hh.symm)]
  simp only [tryMatch, h1]

theorem reSub_of_match {r : Rule} {w rep rest : Str}
    (h : tryMatch r w = some (rep, rest))
    (hrest : containsSub pLit rest = false) : reSub r w = rep ++ rest := by
  rw [reSub_eq_match h, reSub_id_of_not_contains hrest]

theorem reSub_cons_of_none_id {r : Rule} {c0 : Char} {t : Str}
    (h0 : tryMatch r (c0 :: t) = none) (ht : containsSub pLit t = false) :
    reSub r (c0 :: t) = c0 :: t := by
  rw [reSub_cons_none h0, reSub_id_of_not_contains ht]

theorem p_not_mem_call_tail {s c : Str} (hs : 'p' ∉ s) (hc : 'p' ∉ c) :
    'p' ∉ (("rint(\"").toList ++ (s ++ '"' :: ')' :: c)) := by
  intro hmem
  rcases List.mem_append.1 hmem with hA | hB
  · exact absurd hA (by decide)
  rcases List.mem_append.1 hB with hS | hC
  · exact hs hS
  rcases List.mem_cons.1 hC with h1 | hC2
  · exact absurd h1 (by decide)
  rcases List.mem_cons.1 hC2 with h2 | hC3
  · exact absurd h2 (by decide)
  exact hc hC3

theorem reSub_call_miss {r : Rule} {s c : Str}
    (h0 : tryMatch r (pqLit ++ (s ++ '"' :: ')' :: c)) = none)
    (hs : 'p' ∉ s) (hc : 'p' ∉ c) :
    reSub r (pqLit ++ (s ++ '"' :: ')' :: c)) = pqLit ++ (s ++ '"' :: ')' :: c) := by
  have hshape : pqLit ++ (s ++ '"' :: ')' :: c) =
      'p' :: (("rint(\"").toList ++ (s ++ '"' :: ')' :: c)) := rfl
  rw [hshape] at h0 ⊢
  rw [reSub_cons_of_none_id h0 (no_pLit (p_not_mem_call_tail hs hc))]



theorem isPre_iff {p s : Str} : isPre p s = true ↔ ∃ r, s = p ++ r := by
  unfold isPre
  rw [Option.isSome_iff_exists]
  constructor
  · rintro ⟨r, hr⟩
    exact ⟨r, stripP_eq_some.1 hr⟩
  · rintro ⟨r, rfl⟩
    exact ⟨r, stripP_self⟩

theorem tryMatch_marker_hit2 {m s2 c : Str} {sev : Sev} (hq : ∀ x ∈ s2, x ≠ '"') :
    tryMatch (.marker m sev) (pqLit ++ m ++ (s2 ++ '"' :: ')' :: c)) =
      some (sevStr sev ++ '(' :: '"' :: (m ++ s2 ++ ['"', ')']), c) := by
  have h : tryMatch (.marker m sev) (pqLit ++ m ++ (s2 ++ '"' :: ')' :: c)) =
      some (sevStr sev ++ '(' :: '"' :: (m ++ takeNotQ (s2 ++ '"' :: ')' :: c) ++ ['"', ')']), c) :=
    tryMatch_marker_hit hq
  rw [takeNotQ_append hq] at h
  exact h

theorem rep_pfree {h s c : Str} (hh : 'p' ∉ h) (hs : 'p' ∉ s) (hc : 'p' ∉ c) :
    containsSub pLit ((h ++ '(' :: '"' :: (s ++ ['"', ')'])) ++ c) = false := by
  apply no_pLit
  intro hmem
  rcases List.mem_append.1 hmem with hA | hC
  · rcases List.mem_append.1 hA with hA1 | hA2
    · exact hh hA1
    rcases List.mem_cons.1 hA2 with h1 | hA3
    · exact absurd h1 (by decide)
    rcases List.mem_cons.1 hA3 with h2 | hA4
    · exact absurd h2 (by decide)
    rcases List.mem_append.1 hA4 with hS | hQ
    · exact hs hS
    · exact absurd hQ (by decide)
  · exact hc hC

theorem pipeline_finish_marker {m s2 c : Str} {sev : Sev} {rs : List Rule}
    (hq2 : ∀ x ∈ s2, x ≠ '"') (hsp : 'p' ∉ m ++ s2) (hcp : 'p' ∉ c) :
    applyAll (Rule.marker m sev :: rs) (pqLit ++ ((m ++ s2) ++ '"' :: ')' :: c)) =
      (sevStr sev ++ '(' :: '"' :: ((m ++ s2) ++ ['"', ')'])) ++ c := by
  have hmatch : tryMatch (.marker m sev) (pqLit ++ ((m ++ s2) ++ '"' :: ')' :: c)) =
      some (sevStr sev ++ '(' :: '"' :: (m ++ s2 ++ ['"', ')']), c) := by
    rw [show pqLit ++ ((m ++ s2) ++ '"' :: ')' :: c) =
        pqLit ++ m ++ (s2 ++ '"' :: ')' :: c) by simp [List.append_assoc]]
    exact tryMatch_marker_hit2 hq2
  rw [applyAll_cons, reSub_of_match hmatch (no_pLit hcp)]
  rw [show (sevStr sev ++ '(' :: '"' :: (m ++ s2 ++ ['"', ')'])) ++ c =
      (sevStr sev ++ '(' :: '"' :: ((m ++ s2) ++ ['"', ')'])) ++ c by simp [List.append_assoc]]
  exact applyAll_id (rep_pfree sevStr_pfree hsp hcp)

theorem pipeline_finish_keyword {k s c : Str} {rs : List Rule}
    (hsq : ∀ x ∈ s, x ≠ '"') (hk : containsSub k s = true)
    (hsp : 'p' ∉ s) (hcp : 'p' ∉ c) :
    applyAll (Rule.keyword k :: rs) (pqLit ++ (s ++ '"' :: ')' :: c)) =
      (sevStr .info ++ '(' :: '"' :: (s ++ ['"', ')'])) ++ c := by
  rw [applyAll_cons, reSub_of_match (tryMatch_keyword_hit hsq hk) (no_pLit hcp)]
  exact applyAll_id (rep_pfree sevStr_pfree hsp hcp)

/-- The sixteen conversion passes, applied to a single legacy call whose
sole argument is a plain double-quoted literal `s` followed by arbitrary
`print`-free text `c`, rewrite the call to the structured call of the
severity assigned by the spec's ordered classifier, with the literal body
unchanged. -/
theorem convert_call_pipeline {s c : Str} (hsq : ∀ x ∈ s, x ≠ '"')
    (hsp : 'p' ∉ s) (hcp : 'p' ∉ c) :
    applyAll conversions (pqLit ++ (s ++ '"' :: ')' :: c)) =
      (sevStr (classifySpec s) ++ '(' :: '"' :: (s ++ ['"', ')'])) ++ c := by
  rw [show conversions =
    [ .marker (("✅").toList) .info
    , .marker (("🎉").toList) .info
    , .marker (("📊").toList) .info
    , .marker (("🔍").toList) .info
    , .marker (("❌").toList) .error
    , .marker (("⚠️").toList) .warning
    , .marker (("🚨").toList) .error
    , .marker (("🎨").toList) .info
    , .marker (("🔄").toList) .info
    , .marker (("💡").toList) .info
    , .keyword (("완료").toList)
    , .keyword (("시작").toList)
    , .keyword (("생성").toList)
    , .tripleQuote
    , .marker [] .debug
    , .anyArg ] from rfl]
  cases h1 : isPre (("✅").toList) s with
  | true =>
    obtain ⟨s2, rfl⟩ := isPre_iff.1 h1
    have hpre : isPre (("✅").toList) (("✅").toList ++ s2) = true :=
      isPre_iff.2 ⟨s2, rfl⟩
    rw [show classifySpec (("✅").toList ++ s2) = .info by
      unfold classifySpec
      rw [hpre]
      simp]
    exact pipeline_finish_marker (fun x hx => hsq x (by simp [hx])) hsp hcp
  | false =>
  rw [applyAll_cons, reSub_call_miss (tryMatch_marker_miss (by decide) hsq h1) hsp hcp]
  cases h2 : isPre (("🎉").toList) s with
  | true =>
    obtain ⟨s2, rfl⟩ := isPre_iff.1 h2
    have hpre : isPre (("🎉").toList) (("🎉").toList ++ s2) = true :=
      isPre_iff.2 ⟨s2, rfl⟩
    rw [show classifySpec (("🎉").toList ++ s2) = .info by
      unfold classifySpec
      rw [h1, hpre]
      simp]
    exact pipeline_finish_marker (fun x hx => hsq x (by simp [hx])) hsp hcp
  | false =>
  rw [applyAll_cons, reSub_call_miss (tryMatch_marker_miss (by decide) hsq h2) hsp hcp]
  cases h3 : isPre (("📊").toList) s with
  | true =>
    obtain ⟨s2, rfl⟩ := isPre_iff.1 h3
    have hpre : isPre (("📊").toList) (("📊").toList ++ s2) = true :=
      isPre_iff.2 ⟨s2, rfl⟩
    rw [show classifySpec (("📊").toList ++ s2) = .info by
      unfold classifySpec
      rw [h1, h2, hpre]
      simp]
    exact pipeline_finish_marker (fun x hx => hsq x (by simp [hx])) hsp hcp
  | false =>
  rw [applyAll_cons, reSub_call_miss (tryMatch_marker_miss (by decide) hsq h3) hsp hcp]
  cases h4 : isPre (("🔍").toList) s with
  | true =>
    obtain ⟨s2, rfl⟩ := isPre_iff.1 h4
    have hpre : isPre (("🔍").toList) (("🔍").toList ++ s2) = true :=
      isPre_iff.2 ⟨s2, rfl⟩
    rw [show classifySpec (("🔍").toList ++ s2) = .info by
      unfold classifySpec
      rw [h1, h2, h3, hpre]
      simp]
    exact pipeline_finish_marker (fun x hx => hsq x (by simp [hx])) hsp hcp
  | false =>
  rw [applyAll_cons, reSub_call_miss (tryMatch_marker_miss (by decide) hsq h4) hsp hcp]
  cases h5 : isPre (("❌").toList) s with
  | true =>
    obtain ⟨s2, rfl⟩ := isPre_iff.1 h5
    have hpre : isPre (("❌").toList) (("❌").toList ++ s2) = true :=
      isPre_iff.2 ⟨s2, rfl⟩
    rw [show classifySpec (("❌").toList ++ s2) = .error by
      unfold classifySpec
      rw [h1, h2, h3, h4, hpre]
      simp]
    exact pipeline_finish_marker (fun x hx => hsq x (by simp [hx])) hsp hcp
  | false =>
  rw [applyAll_cons, reSub_call_miss (tryMatch_marker_miss (by decide) hsq h5) hsp hcp]
  cases h6 : isPre (("⚠️").toList) s with
  | true =>
    obtain ⟨s2, rfl⟩ := isPre_iff.1 h6
    have hpre : isPre (("⚠️").toList) (("⚠️").toList ++ s2) = true :=
      isPre_iff.2 ⟨s2, rfl⟩
    rw [show classifySpec (("⚠️").toList ++ s2) = .warning by
      unfold classifySpec
      rw [h1, h2, h3, h4, h5, hpre]
      simp]
    exact pipeline_finish_marker (fun x hx => hsq x (by simp [hx])) hsp hcp
  | false =>
  rw [applyAll_cons, reSub_call_miss (tryMatch_marker_miss (by decide) hsq h6) hsp hcp]
  cases h7 : isPre (("🚨").toList) s with
  | true =>
    obtain ⟨s2, rfl⟩ := isPre_iff.1 h7
    have hpre : isPre (("🚨").toList) (("🚨").toList ++ s2) = true :=
      isPre_iff.2 ⟨s2, rfl⟩
    rw [show classifySpec (("🚨").toList ++ s2) = .error by
      unfold classifySpec
      rw [h1, h2, h3, h4, h5, h6, hpre]
      simp]
    exact pipeline_finish_marker (fun x hx => hsq x (by simp [hx])) hsp hcp
  | false =>
  rw [applyAll_cons, reSub_call_miss (tryMatch_marker_miss (by decide) hsq h7) hsp hcp]
  cases h8 : isPre (("🎨").toList) s with
  | true =>
    obtain ⟨s2, rfl⟩ := isPre_iff.1 h8
    have hpre : isPre (("🎨").toList) (("🎨").toList ++ s2) = true :=
      isPre_iff.2 ⟨s2, rfl⟩
    rw [show classifySpec (("🎨").toList ++ s2) = .info by
      unfold classifySpec
      rw [h1, h2, h3, h4, h5, h6, h7, hpre]
      simp]
    exact pipeline_finish_marker (fun x hx => hsq x (by simp [hx])) hsp hcp
  | false =>
  rw [applyAll_cons, reSub_call_miss (tryMatch_marker_miss (by decide) hsq h8) hsp hcp]
  cases h9 : isPre (("🔄").toList) s with
  | true =>
    obtain ⟨s2, rfl⟩ := isPre_iff.1 h9
    have hpre : isPre (("🔄").toList) (("🔄").toList ++ s2) = true :=
      isPre_iff.2 ⟨s2, rfl⟩
    rw [show classifySpec (("🔄").toList ++ s2) = .info by
      unfold classifySpec
      rw [h1, h2, h3, h4, h5, h6, h7, h8, hpre]
      simp]
    exact pipeline_finish_marker (fun x hx => hsq x (by simp [hx])) hsp hcp
  | false =>
  rw [applyAll_cons, reSub_call_miss (tryMatch_marker_miss (by decide) hsq h9) hsp hcp]
  cases h10 : isPre (("💡").toList) s with
  | true =>
    obtain ⟨s2, rfl⟩ := isPre_iff.1 h10
    have hpre : isPre (("💡").toList) (("💡").toList ++ s2) = true :=
      isPre_iff.2 ⟨s2, rfl⟩
    rw [show classifySpec (("💡").toList ++ s2) = .info by
      unfold classifySpec
      rw [h1, h2, h3, h4, h5, h6, h7, h8, h9, hpre]
      simp]
    exact pipeline_finish_marker (fun x hx => hsq x (by simp [hx])) hsp hcp
  | false =>
  rw [applyAll_cons, reSub_call_miss (tryMatch_marker_miss (by decide) hsq h10) hsp hcp]
  cases h11 : containsSub (("완료").toList) s with
  | true =>
    rw [show classifySpec s = .info by
      unfold classifySpec
      rw [h1, h2, h3, h4, h5, h6, h7, h8, h9, h10, h11]
      simp]
    exact pipeline_finish_keyword hsq h11 hsp hcp
  | false =>
  rw [applyAll_cons, reSub_call_miss (tryMatch_keyword_miss hsq h11) hsp hcp]
  cases h12 : containsSub (("시작").toList) s with
  | true =>
    rw [show classifySpec s = .info by
      unfold classifySpec
      rw [h1, h2, h3, h4, h5, h6, h7, h8, h9, h10, h11, h12]
      simp]
    exact pipeline_finish_keyword hsq h12 hsp hcp
  | false =>
  rw [applyAll_cons, reSub_call_miss (tryMatch_keyword_miss hsq h12) hsp hcp]
  cases h13 : containsSub (("생성").toList) s with
  | true =>
    rw [show classifySpec s = .info by
      unfold classifySpec
      rw [h1, h2, h3, h4, h5, h6, h7, h8, h9, h10, h11, h12, h13]
      simp]
    exact pipeline_finish_keyword hsq h13 hsp hcp
  | false =>
  rw [applyAll_cons, reSub_call_miss (tryMatch_keyword_miss hsq h13) hsp hcp]
  rw [applyAll_cons, reSub_call_miss (tryMatch_triple_missq hsq) hsp hcp]
  rw [show classifySpec s = .debug by
    unfold classifySpec
    rw [h1, h2, h3, h4, h5, h6, h7, h8, h9, h10, h11, h12, h13]
    simp]
  rw [show pqLit ++ (s ++ '"' :: ')' :: c) =
      pqLit ++ (([] : Str) ++ s ++ '"' :: ')' :: c) by simp]
  exact pipeline_finish_marker hsq hsp hcp



/-- The whole per-file transformation on a file consisting of one plain
quoted legacy call surrounded by `print`-free and declaration-free text:
the call becomes the structured call of the classified severity, the
literal body and the surrounding text are unchanged. -/
theorem convert_single_call {a s c : Str}
    (hap : 'p' ∉ a) (hsq : ∀ x ∈ s, x ≠ '"') (hsp : 'p' ∉ s) (hcp : 'p' ∉ c)
    (hIL : containsSub ilLit (a ++ (pqLit ++ (s ++ '"' :: ')' :: c))) = false)
    (hAN : containsSub anchorLit (a ++ (pqLit ++ (s ++ '"' :: ')' :: c))) = false) :
    convertContent (a ++ (pqLit ++ (s ++ '"' :: ')' :: c))) =
      a ++ ((sevStr (classifySpec s) ++ '(' :: '"' :: (s ++ ['"', ')'])) ++ c) := by
  have hw : addImport (a ++ (pqLit ++ (s ++ '"' :: ')' :: c))) =
      a ++ (pqLit ++ (s ++ '"' :: ')' :: c)) := by
    unfold addImport
    rw [hIL, if_neg Bool.false_ne_true]
    exact subAnchor_id_of_not_contains hAN
  unfold convertContent
  rw [hw, applyAll_append_pfree (fun x hx hxp => hap (hxp ▸ hx)),
    convert_call_pipeline hsq hsp hcp]

/-! ## Behaviour on a bare-expression call (no leading quote) -/

theorem stripP_pq_bare {a0 : Char} {args c : Str} (ha : a0 ≠ '"') :
    stripP pqLit (pLit ++ ((a0 :: args) ++ ')' :: c)) = none := by
  rw [show pqLit = pLit ++ ['"'] from rfl, stripP_append, stripP_self]
  show stripP ['"'] ((a0 :: args) ++ ')' :: c) = none
  simp [stripP, if_neg (show ¬ ('"' : Char) = a0 from fun hh => ha hh.symm)]

theorem tryMatch_marker_miss_bare {m : Str} {sev : Sev} {a0 : Char} {args c : Str}
    (ha : a0 ≠ '"') :
    tryMatch (.marker m sev) (pLit ++ ((a0 :: args) ++ ')' :: c)) = none := by
  have h1 : stripP (pqLit ++ m) (pLit ++ ((a0 :: args) ++ ')' :: c)) = none := by
    rw [show pqLit ++ m = (pLit ++ ['"']) ++ m from rfl, List.append_assoc,
      stripP_append, stripP_self]
    show stripP ('"' :: m) ((a0 :: args) ++ ')' :: c) = none
    simp [stripP, if_neg (show ¬ ('"' : Char) = a0 from fun hh => ha hh.symm)]
  simp only [tryMatch, h1]

theorem tryMatch_keyword_miss_bare {k : Str} {a0 : Char} {args c : Str}
    (ha : a0 ≠ '"') :
    tryMatch (.keyword k) (pLit ++ ((a0 :: args) ++ ')' :: c)) = none := by
  simp only [tryMatch, stripP_pq_bare ha]

theorem tryMatch_triple_miss_bare {a0 : Char} {args c : Str} (ha : a0 ≠ '"') :
    tryMatch .tripleQuote (pLit ++ ((a0 :: args) ++ ')' :: c)) = none := by
  have h1 : stripP tripleLit (pLit ++ ((a0 :: args) ++ ')' :: c)) = none := by
    rw [show tripleLit = pLit ++ ('"' :: '"' :: '"' :: []) from rfl, stripP_append,
      stripP_self]
    show stripP ('"' :: '"' :: '"' :: []) ((a0 :: args) ++ ')' :: c) = none
    simp [stripP, if_neg (show ¬ ('"' : Char) = a0 from fun hh => ha hh.symm)]
  simp only [tryMatch, h1]

theorem tryMatch_anyArg_hit {a0 : Char} {args c : Str} (hnp : ')' ∉ (a0 :: args)) :
    tryMatch .anyArg (pLit ++ ((a0 :: args) ++ ')' :: c)) =
      some (("#logDebug(").toList ++ (a0 :: args) ++ [')'], c) := by
  have h1 : stripP pLit (pLit ++ ((a0 :: args) ++ ')' :: c)) =
      some ((a0 :: args) ++ ')' :: c) := stripP_self
  have ht : takeNotC ((a0 :: args) ++ ')' :: c) = a0 :: args :=
    takeNotC_append (fun x hx hxp => hnp (hxp ▸ hx))
  have hd : dropNotC ((a0 :: args) ++ ')' :: c) = ')' :: c :=
    dropNotC_append (fun x hx hxp => hnp (hxp ▸ hx))
  simp only [tryMatch, h1, ht, hd]

theorem p_not_mem_bare_tail {arg c : Str} (hs : 'p' ∉ arg) (hc : 'p' ∉ c) :
    'p' ∉ (("rint(").toList ++ (arg ++ ')' :: c)) := by
  intro hmem
  rcases List.mem_append.1 hmem with hA | hB
  · exact absurd hA (by decide)
  rcases List.mem_append.1 hB with hS | hC
  · exact hs hS
  rcases List.mem_cons.1 hC with h1 | hC2
  · exact absurd h1 (by decide)
  exact hc hC2

theorem reSub_bare_miss {r : Rule} {arg c : Str}
    (h0 : tryMatch r (pLit ++ (arg ++ ')' :: c)) = none)
    (hs : 'p' ∉ arg) (hc : 'p' ∉ c) :
    reSub r (pLit ++ (arg ++ ')' :: c)) = pLit ++ (arg ++ ')' :: c) := by
  have hshape : pLit ++ (arg ++ ')' :: c) =
      'p' :: (("rint(").toList ++ (arg ++ ')' :: c)) := rfl
  rw [hshape] at h0 ⊢
  rw [reSub_cons_of_none_id h0 (no_pLit (p_not_mem_bare_tail hs hc))]

/-- The sixteen passes on a call whose argument list does not start with a
double quote and contains no `)`: only the final `anyArg` rule fires, and
it wraps the whole argument list in a Debug call. -/
theorem convert_bare_pipeline {a0 : Char} {args c : Str}
    (ha : a0 ≠ '"') (hnp : ')' ∉ (a0 :: args)) (hp : 'p' ∉ (a0 :: args))
    (hcp : 'p' ∉ c) :
    applyAll conversions (pLit ++ ((a0 :: args) ++ ')' :: c)) =
      (("#logDebug(").toList ++ (a0 :: args) ++ [')']) ++ c := by
  rw [show conversions =
    [ .marker (("✅").toList) .info
    , .marker (("🎉").toList) .info
    , .marker (("📊").toList) .info
    , .marker (("🔍").toList) .info
    , .marker (("❌").toList) .error
    , .marker (("⚠️").toList) .warning
    , .marker (("🚨").toList) .error
    , .marker (("🎨").toList) .info
    , .marker (("🔄").toList) .info
    , .marker (("💡").toList) .info
    , .keyword (("완료").toList)
    , .keyword (("시작").toList)
    , .keyword (("생성").toList)
    , .tripleQuote
    , .marker [] .debug
    , .anyArg ] from rfl]
  rw [applyAll_cons, reSub_bare_miss (tryMatch_marker_miss_bare ha) hp hcp]
  rw [applyAll_cons, reSub_bare_miss (tryMatch_marker_miss_bare ha) hp hcp]
  rw [applyAll_cons, reSub_bare_miss (tryMatch_marker_miss_bare ha) hp hcp]
  rw [applyAll_cons, reSub_bare_miss (tryMatch_marker_miss_bare ha) hp hcp]
  rw [applyAll_cons, reSub_bare_miss (tryMatch_marker_miss_bare ha) hp hcp]
  rw [applyAll_cons, reSub_bare_miss (tryMatch_marker_miss_bare ha) hp hcp]
  rw [applyAll_cons, reSub_bare_miss (tryMatch_marker_miss_bare ha) hp hcp]
  rw [applyAll_cons, reSub_bare_miss (tryMatch_marker_miss_bare ha) hp hcp]
  rw [applyAll_cons, reSub_bare_miss (tryMatch_marker_miss_bare ha) hp hcp]
  rw [applyAll_cons, reSub_bare_miss (tryMatch_marker_miss_bare ha) hp hcp]
  rw [applyAll_cons, reSub_bare_miss (tryMatch_keyword_miss_bare ha) hp hcp]
  rw [applyAll_cons, reSub_bare_miss (tryMatch_keyword_miss_bare ha) hp hcp]
  rw [applyAll_cons, reSub_bare_miss (tryMatch_keyword_miss_bare ha) hp hcp]
  rw [applyAll_cons, reSub_bare_miss (tryMatch_triple_miss_bare ha) hp hcp]
  rw [applyAll_cons, reSub_bare_miss (tryMatch_marker_miss_bare ha) hp hcp]
  rw [applyAll_cons, reSub_of_match (tryMatch_anyArg_hit hnp) (no_pLit hcp)]
  rfl

/-! ## Behaviour on a triple-quoted block-string call -/

theorem tryMatch_marker_miss_triple {m t : Str} {sev : Sev}
    (hm0 : m ≠ []) (hmq : m.head? ≠ some '"') :
    tryMatch (.marker m sev) (tripleLit ++ t) = none := by
  have h1 : stripP (pqLit ++ m) (tripleLit ++ t) = none := by
    rw [show tripleLit ++ t = pqLit ++ ('"' :: '"' :: t) from rfl, stripP_append,
      stripP_self]
    show stripP m ('"' :: '"' :: t) = none
    cases m with
    | nil => exact absurd rfl hm0
    | cons e m2 =>
      have he : e ≠ '"' := fun hh => hmq (by simp [hh])
      simp [stripP, if_neg he]
  simp only [tryMatch, h1]

theorem splitFirst_nil_none {k : Str} (hk : k ≠ []) : splitFirst k [] = none := by
  cases k with
  | nil => exact absurd rfl hk
  | cons e k2 => rfl

theorem tryMatch_keyword_miss_triple {k t : Str} (hk : k ≠ []) :
    tryMatch (.keyword k) (tripleLit ++ t) = none := by
  have h1 : stripP pqLit (tripleLit ++ t) = some ('"' :: '"' :: t) := by
    rw [show tripleLit ++ t = pqLit ++ ('"' :: '"' :: t) from rfl]
    exact stripP_self
  have h2 : takeNotQ ('"' :: '"' :: t) = [] := rfl
  simp only [tryMatch, h1, h2, splitFirst_nil_none hk]

theorem tryMatch_triple_hit {t : Str} :
    tryMatch .tripleQuote (tripleLit ++ t) = some (sevStr .info ++ ['(', '"', '"', '"'], t) := by
  simp only [tryMatch, stripP_self]

theorem p_not_mem_triple_tail {t : Str} (ht : 'p' ∉ t) :
    'p' ∉ (("rint(\"\"\"").toList ++ t) := by
  intro hmem
  rcases List.mem_append.1 hmem with hA | hB
  · exact absurd hA (by decide)
  · exact ht hB

theorem reSub_triple_miss {r : Rule} {t : Str}
    (h0 : tryMatch r (tripleLit ++ t) = none) (ht : 'p' ∉ t) :
    reSub r (tripleLit ++ t) = tripleLit ++ t := by
  have hshape : tripleLit ++ t = 'p' :: (("rint(\"\"\"").toList ++ t) := rfl
  rw [hshape] at h0 ⊢
  rw [reSub_cons_of_none_id h0 (no_pLit (p_not_mem_triple_tail ht))]

/-- The sixteen passes on a call opened with a triple-quoted block string:
the block-string rule fires (independently of the block content) and
produces an Info call; no other rule touches the text. -/
theorem convert_triple_pipeline {t : Str} (ht : 'p' ∉ t) :
    applyAll conversions (tripleLit ++ t) =
      (sevStr .info ++ ['(', '"', '"', '"']) ++ t := by
  have hrepfree : containsSub pLit ((sevStr .info ++ ['(', '"', '"', '"']) ++ t) = false := by
    apply no_pLit
    intro hmem
    rcases List.mem_append.1 hmem with hA | hB
    · rcases List.mem_append.1 hA with hA1 | hA2
      · exact sevStr_pfree hA1
      · exact absurd hA2 (by decide)
    · exact ht hB
  rw [show conversions =
    [ .marker (("✅").toList) .info
    , .marker (("🎉").toList) .info
    , .marker (("📊").toList) .info
    , .marker (("🔍").toList) .info
    , .marker (("❌").toList) .error
    , .marker (("⚠️").toList) .warning
    , .marker (("🚨").toList) .error
    , .marker (("🎨").toList) .info
    , .marker (("🔄").toList) .info
    , .marker (("💡").toList) .info
    , .keyword (("완료").toList)
    , .keyword (("시작").toList)
    , .keyword (("생성").toList)
    , .tripleQuote
    , .marker [] .debug
    , .anyArg ] from rfl]
  rw [applyAll_cons, reSub_triple_miss (tryMatch_marker_miss_triple (by decide) (by decide)) ht]
  rw [applyAll_cons, reSub_triple_miss (tryMatch_marker_miss_triple (by decide) (by decide)) ht]
  rw [applyAll_cons, reSub_triple_miss (tryMatch_marker_miss_triple (by decide) (by decide)) ht]
  rw [applyAll_cons, reSub_triple_miss (tryMatch_marker_miss_triple (by decide) (by decide)) ht]
  rw [applyAll_cons, reSub_triple_miss (tryMatch_marker_miss_triple (by decide) (by decide)) ht]
  rw [applyAll_cons, reSub_triple_miss (tryMatch_marker_miss_triple (by decide) (by decide)) ht]
  rw [applyAll_cons, reSub_triple_miss (tryMatch_marker_miss_triple (by decide) (by decide)) ht]
  rw [applyAll_cons, reSub_triple_miss (tryMatch_marker_miss_triple (by decide) (by decide)) ht]
  rw [applyAll_cons, reSub_triple_miss (tryMatch_marker_miss_triple (by decide) (by decide)) ht]
  rw [applyAll_cons, reSub_triple_miss (tryMatch_marker_miss_triple (by decide) (by decide)) ht]
  rw [applyAll_cons, reSub_triple_miss (tryMatch_keyword_miss_triple (by decide)) ht]
  rw [applyAll_cons, reSub_triple_miss (tryMatch_keyword_miss_triple (by decide)) ht]
  rw [applyAll_cons, reSub_triple_miss (tryMatch_keyword_miss_triple (by decide)) ht]
  rw [applyAll_cons, reSub_of_match tryMatch_triple_hit (no_pLit ht)]
  exact applyAll_id hrepfree

/-! ## Behaviour on an empty-argument call `print()` -/

theorem tryMatch_empty_call {r : Rule} {c : Str} :
    tryMatch r (pLit ++ ')' :: c) = none := by
  cases r <;> rfl

theorem p_not_mem_empty_tail {c : Str} (hc : 'p' ∉ c) :
    'p' ∉ (("rint(").toList ++ ')' :: c) := by
  intro hmem
  rcases List.mem_append.1 hmem with hA | hB
  · exact absurd hA (by decide)
  rcases List.mem_cons.1 hB with h1 | hC
  · exact absurd h1 (by decide)
  exact hc hC

theorem reSub_empty_call {r : Rule} {c : Str} (hc : 'p' ∉ c) :
    reSub r (pLit ++ ')' :: c) = pLit ++ ')' :: c := by
  have hshape : pLit ++ ')' :: c = 'p' :: (("rint(").toList ++ ')' :: c) := rfl
  rw [hshape]
  rw [reSub_cons_of_none_id (hshape ▸ tryMatch_empty_call)
    (no_pLit (p_not_mem_empty_tail hc))]

theorem applyAll_empty_call {rs : List Rule} {c : Str} (hc : 'p' ∉ c) :
    applyAll rs (pLit ++ ')' :: c) = pLit ++ ')' :: c := by
  induction rs with
  | nil => rfl
  | cons r rs ih => rw [applyAll_cons, reSub_empty_call hc, ih]



/-! ## Lemmas about the benchmark summarizer -/

theorem entry_appendRow {α : Type} {g : List (Int × List (Row α))} {r : Row α} {k : Int} :
    entryOf k (appendRow g r) = entryOf k g ++ (if r.count = k then [r] else []) := by
  induction g with
  | nil =>
    simp only [appendRow, entryOf]
    by_cases h : r.count = k <;> simp [h]
  | cons kg g2 ih =>
    obtain ⟨k2, rs⟩ := kg
    by_cases h2 : k2 = r.count
    · simp only [appendRow, if_pos h2, entryOf]
      by_cases h3 : k2 = k
      · rw [if_pos h3, if_pos h3, if_pos (show r.count = k from h2 ▸ h3)]
      · rw [if_neg h3, if_neg h3, if_neg (show ¬ r.count = k from fun hh => h3 (h2.trans hh))]
        simp
    · simp only [appendRow, if_neg h2, entryOf]
      by_cases h3 : k2 = k
      · rw [if_pos h3, if_pos h3,
          if_neg (show ¬ r.count = k from fun hh => h2 (h3.trans hh.symm))]
        simp
      · rw [if_neg h3, if_neg h3]
        exact ih

theorem entry_foldl {α : Type} :
    ∀ (rows : List (Row α)) (g : List (Int × List (Row α))) (k : Int),
      entryOf k (rows.foldl appendRow g) =
        entryOf k g ++ rows.filter (fun r => r.count = k) := by
  intro rows
  induction rows with
  | nil => intro g k; simp [List.filter]
  | cons r rows ih =>
    intro g k
    rw [List.foldl_cons, ih]
    rw [entry_appendRow]
    by_cases h : r.count = k
    · simp [List.filter, h, List.append_assoc]
    · simp [List.filter, h]

theorem keys_appendRow {α : Type} {g : List (Int × List (Row α))} {r : Row α} :
    keysOf (appendRow g r) =
      if r.count ∈ keysOf g then keysOf g else keysOf g ++ [r.count] := by
  induction g with
  | nil => simp [appendRow, keysOf]
  | cons kg g2 ih =>
    obtain ⟨k2, rs⟩ := kg
    by_cases h2 : k2 = r.count
    · subst h2
      simp [appendRow, keysOf]
    · simp only [appendRow, if_neg h2, keysOf, List.map_cons] at ih ⊢
      rw [ih]
      by_cases h3 : r.count ∈ List.map Prod.fst g2
      · simp [h3, show r.count ∈ k2 :: List.map Prod.fst g2 from List.mem_cons_of_mem _ h3]
      · have : ¬ r.count ∈ k2 :: List.map Prod.fst g2 := by
          simp only [List.mem_cons]
          rintro (hh | hh)
          · exact h2 hh.symm
          · exact h3 hh
        simp [h3, this]

theorem keys_mem_foldl {α : Type} :
    ∀ (rows : List (Row α)) (g : List (Int × List (Row α))) (k : Int),
      k ∈ keysOf (rows.foldl appendRow g) ↔
        k ∈ keysOf g ∨ k ∈ rows.map (fun r => r.count) := by
  intro rows
  induction rows with
  | nil => intro g k; simp
  | cons r rows ih =>
    intro g k
    rw [List.foldl_cons, ih]
    rw [keys_appendRow]
    by_cases h : r.count ∈ keysOf g
    · simp only [if_pos h, List.map_cons, List.mem_cons]
      constructor
      · tauto
      · rintro (hk | hk | hk)
        · exact Or.inl hk
        · exact Or.inl (hk ▸ h)
        · exact Or.inr hk
    · simp only [if_neg h, List.map_cons, List.mem_cons, List.mem_append,
        List.mem_singleton]
      tauto

theorem keys_nodup_foldl {α : Type} :
    ∀ (rows : List (Row α)) (g : List (Int × List (Row α))),
      (keysOf g).Nodup → (keysOf (rows.foldl appendRow g)).Nodup := by
  intro rows
  induction rows with
  | nil => intro g h; simpa using h
  | cons r rows ih =>
    intro g h
    rw [List.foldl_cons]
    apply ih
    rw [keys_appendRow]
    by_cases hmem : r.count ∈ keysOf g
    · simpa [hmem] using h
    · rw [if_neg hmem]
      have : (keysOf g ++ [r.count]).Nodup := by
        rw [List.nodup_append]
        exact ⟨h, List.nodup_singleton _, by simpa using hmem⟩
      exact this

theorem entry_of_mem {α : Type} :
    ∀ (g : List (Int × List (Row α))) (k : Int) (rs : List (Row α)),
      (keysOf g).Nodup → (k, rs) ∈ g → entryOf k g = rs := by
  intro g
  induction g with
  | nil => intro k rs _ h; simp at h
  | cons kg g2 ih =>
    intro k rs hnd hmem
    obtain ⟨k2, rs2⟩ := kg
    simp only [keysOf, List.map_cons, List.nodup_cons] at hnd
    rcases List.mem_cons.1 hmem with heq | hmem2
    · obtain ⟨hk, hrs⟩ := Prod.mk.injEq .. ▸ heq
      injection heq with h1 h2
      subst h1
      subst h2
      simp [entryOf]
    · have hk2 : k2 ≠ k := by
        intro hh
        subst hh
        exact hnd.1 (by
          have : (k2, rs) ∈ g2 := hmem2
          exact List.mem_map.2 ⟨(k2, rs), this, rfl⟩)
      simp only [entryOf, if_neg hk2]
      exact ih k rs hnd.2 hmem2

theorem mem_insKey {α : Type} {e x : Int × α} {l : List (Int × α)} :
    x ∈ insKey e l ↔ x = e ∨ x ∈ l := by
  induction l with
  | nil => simp [insKey]
  | cons y ys ih =>
    by_cases h : e.1 ≤ y.1
    · simp [insKey, h, List.mem_cons]
    · simp only [insKey, if_neg h, List.mem_cons, ih]
      tauto

theorem mem_sortByKey {α : Type} {x : Int × α} {l : List (Int × α)} :
    x ∈ sortByKey l ↔ x ∈ l := by
  induction l with
  | nil => simp [sortByKey]
  | cons y ys ih =>
    show x ∈ insKey y (sortByKey ys) ↔ _
    rw [mem_insKey]
    simp [ih]

theorem length_insKey {α : Type} {e : Int × α} {l : List (Int × α)} :
    (insKey e l).length = l.length + 1 := by
  induction l with
  | nil => rfl
  | cons y ys ih =>
    by_cases h : e.1 ≤ y.1
    · simp [insKey, h]
    · simp [insKey, h, ih]

theorem length_sortByKey {α : Type} {l : List (Int × α)} :
    (sortByKey l).length = l.length := by
  induction l with
  | nil => rfl
  | cons y ys ih =>
    show (insKey y (sortByKey ys)).length = ys.length + 1
    rw [length_insKey, ih]

theorem chain_insDeb {α : Type} {r : Row α} {l : List (Row α)}
    (h : List.Chain' (fun a b => a.debounce ≤ b.debounce) l) :
    List.Chain' (fun a b => a.debounce ≤ b.debounce) (insDeb r l) := by
  induction l with
  | nil => simp [insDeb]
  | cons x xs ih =>
    by_cases hr : r.debounce ≤ x.debounce
    · simp only [insDeb, if_pos hr]
      exact List.chain'_cons.2 ⟨hr, h⟩
    · simp only [insDeb, if_neg hr]
      have hxr : x.debounce ≤ r.debounce := le_of_lt (lt_of_not_le hr)
      have hxs : List.Chain' (fun a b => a.debounce ≤ b.debounce) xs :=
        (List.chain'_cons'.1 h).2
      cases xs with
      | nil => simp [insDeb, hxr]
      | cons x2 xs2 =>
        apply List.chain'_cons'.2
        refine ⟨?_, ih hxs⟩
        intro y hy
        by_cases hr2 : r.debounce ≤ x2.debounce
        · simp only [insDeb, if_pos hr2] at hy
          have hyr : r = y := by simpa using hy
          rw [← hyr]
          exact hxr
        · simp only [insDeb, if_neg hr2] at hy
          have hyx : x2 = y := by simpa using hy
          rw [← hyx]
          exact (List.chain'_cons.1 h).1

theorem chain_sortByDebounce {α : Type} {l : List (Row α)} :
    List.Chain' (fun a b => a.debounce ≤ b.debounce) (sortByDebounce l) := by
  induction l with
  | nil => simp [sortByDebounce]
  | cons x xs ih =>
    show List.Chain' _ (insDeb x (sortByDebounce xs))
    exact chain_insDeb ih


theorem group_mem_char {α : Type} {rows : List (Row α)} {kg : Int × List (Row α)}
    (h : kg ∈ group_by_count rows) :
    kg.2 = sortByDebounce (rows.filter (fun r => r.count = kg.1)) := by
  unfold group_by_count at h
  obtain ⟨kg0, hkg0, rfl⟩ := List.mem_map.1 h
  have hnd : (keysOf (rows.foldl appendRow ([] : List (Int × List (Row α))))).Nodup :=
    keys_nodup_foldl rows [] (by simp [keysOf])
  have hment : (kg0.1, kg0.2) ∈ rows.foldl appendRow ([] : List (Int × List (Row α))) := by
    rw [Prod.mk.eta]
    exact hkg0
  have hent : entryOf kg0.1 (rows.foldl appendRow ([] : List (Int × List (Row α)))) = kg0.2 :=
    entry_of_mem _ kg0.1 kg0.2 hnd hment
  have hfil : entryOf kg0.1 (rows.foldl appendRow ([] : List (Int × List (Row α)))) =
      rows.filter (fun r => r.count = kg0.1) := by
    rw [entry_foldl rows [] kg0.1]
    rfl
  show sortByDebounce kg0.2 = _
  rw [← hent, hfil]

theorem benchSummary_mem {α : Type} {rows : List (Row α)} {l : Int × List (Int × α)}
    (h : l ∈ benchSummary rows) :
    List.Chain' (fun p q => p.1 ≤ q.1) l.2 ∧
      l.2 = (sortByDebounce (rows.filter (fun r => r.count = l.1))).map
        (fun r => (r.debounce, r.p95)) := by
  unfold benchSummary text_summary at h
  obtain ⟨kg, hkg, rfl⟩ := List.mem_map.1 h
  have hg : kg ∈ group_by_count rows := mem_sortByKey.1 hkg
  have hchar := group_mem_char hg
  constructor
  · show List.Chain' _ (kg.2.map _)
    rw [List.chain'_map]
    rw [hchar]
    exact chain_sortByDebounce
  · show kg.2.map _ = _
    rw [hchar]

theorem benchSummary_length {α : Type} (rows : List (Row α)) :
    (benchSummary rows).length = ((rows.map (fun r => r.count)).dedup).length := by
  unfold benchSummary text_summary group_by_count
  rw [List.length_map, length_sortByKey, List.length_map]
  have hkeys : (rows.foldl appendRow ([] : List (Int × List (Row α)))).length =
      (keysOf (rows.foldl appendRow ([] : List (Int × List (Row α))))).length := by
    simp [keysOf]
  rw [hkeys]
  have hnd : (keysOf (rows.foldl appendRow ([] : List (Int × List (Row α))))).Nodup :=
    keys_nodup_foldl rows [] (by simp [keysOf])
  have hfs : (keysOf (rows.foldl appendRow ([] : List (Int × List (Row α))))).toFinset =
      (rows.map (fun r => r.count)).toFinset := by
    ext k
    simp only [List.mem_toFinset]
    rw [keys_mem_foldl rows [] k]
    simp [keysOf]
  rw [← List.toFinset_card_of_nodup hnd, hfs, List.card_toFinset]

/-- A text on which no conversion pattern and no injection applies is left
exactly as it is by the whole per-file transformation. -/
theorem second_run_id {t : Str} (hp : containsSub pLit t = false)
    (hor : containsSub ilLit t = true ∨ containsSub anchorLit t = false) :
    convertContent t = t := by
  have haddt : addImport t = t := by
    unfold addImport
    rcases hor with h | h
    · rw [if_pos h]
    · cases hil : containsSub ilLit t with
      | true => rw [if_pos rfl]
      | false =>
        rw [if_neg Bool.false_ne_true]
        exact subAnchor_id_of_not_contains h
  unfold convertContent
  rw [haddt]
  exact applyAll_id hp


/-! ## The claims -/

/-- Claim C1, counterexample: the interpolated call
`print("❌ Build failed: \(err)")` is rewritten by the `❌` rule to an
Error-severity call (the regexes cannot detect interpolation), not to the
Debug-severity call the claim requires. -/
theorem c1_counterexample :
    convertContent (("print(\"❌ Build failed: \\(err)\")").toList) =
        ("#logError(\"❌ Build failed: \\(err)\")").toList ∧
      ("#logError(\"❌ Build failed: \\(err)\")").toList ≠
        ("#logDebug(\"❌ Build failed: \\(err)\")").toList := by
  constructor
  · decide
  · decide

/-- Claim C1, amended: a diagnostic call whose argument text does not start
with a double quote (a bare or compound expression) and contains no `)` is
rewritten by the final fallback rule to a Debug call whose argument text is
the entire original argument list verbatim; an interpolated *string* still
matches the quoted patterns and takes their severity instead. -/
theorem c1_bare_argument_debug {a0 : Char} {args c : Str}
    (ha : a0 ≠ '"') (hnp : ')' ∉ (a0 :: args)) (hp : 'p' ∉ (a0 :: args))
    (hcp : 'p' ∉ c)
    (hIL : containsSub ilLit (pLit ++ ((a0 :: args) ++ ')' :: c)) = false)
    (hAN : containsSub anchorLit (pLit ++ ((a0 :: args) ++ ')' :: c)) = false) :
    convertContent (pLit ++ ((a0 :: args) ++ ')' :: c)) =
      (("#logDebug(").toList ++ (a0 :: args) ++ [')']) ++ c := by
  have hw : addImport (pLit ++ ((a0 :: args) ++ ')' :: c)) =
      pLit ++ ((a0 :: args) ++ ')' :: c) := by
    unfold addImport
    rw [hIL, if_neg Bool.false_ne_true]
    exact subAnchor_id_of_not_contains hAN
  unfold convertContent
  rw [hw]
  exact convert_bare_pipeline ha hnp hp hcp

/-- Witness for C1's amended theorem at the argument `err`. -/
theorem c1_witness :
    convertContent (pLit ++ (('e' :: ['r', 'r']) ++ ')' :: ([] : Str))) =
      (("#logDebug(").toList ++ ('e' :: ['r', 'r']) ++ [')']) ++ ([] : Str) :=
  c1_bare_argument_debug (by decide) (by decide) (by decide) (by decide)
    (by decide) (by decide)

/-- Claim C2, counterexample: migration is not idempotent.  On
`print(print(x))` the first run produces `#logDebug(print(x))`, whose
surviving inner `print(x)` is converted again by a second run. -/
theorem c2_counterexample :
    convertContent (convertContent (("print(print(x))").toList)) ≠
      convertContent (("print(print(x))").toList) := by
  decide

/-- Claim C2, amended: a second run of the per-file migration is a no-op
(and reports the file unchanged) on every file whose first-run output
contains no surviving legacy-call text `print(` and either already contains
the `import LogMacro` declaration or contains no anchor line. -/
theorem c2_idempotent_when_clean {w : Str}
    (hp : containsSub pLit (convertContent w) = false)
    (hor : containsSub ilLit (convertContent w) = true ∨
      containsSub anchorLit (convertContent w) = false) :
    convert_file (convertContent w) = (convertContent w, false) := by
  have hkey : convertContent (convertContent w) = convertContent w :=
    second_run_id hp hor
  unfold convert_file
  rw [hkey]
  simp

/-- Witness for C2's amended theorem on the file `print("hi")`. -/
theorem c2_witness :
    convert_file (convertContent (("print(\"hi\")").toList)) =
      (convertContent (("print(\"hi\")").toList), false) :=
  c2_idempotent_when_clean (by decide) (Or.inr (by decide))

/-- Claim C3, counterexample: a message that contains both the success
marker and the caution marker but *begins* with the caution marker is
classified Warning, not Info — the marker rules only test the start of the
literal, so mere containment of a success marker does not win. -/
theorem c3_counterexample :
    convertContent (("print(\"⚠️ x ✅\")").toList) =
        ("#logWarning(\"⚠️ x ✅\")").toList ∧
      ("#logWarning(\"⚠️ x ✅\")").toList ≠ ("#logInfo(\"⚠️ x ✅\")").toList := by
  constructor
  · decide
  · decide

/-- Claim C3, amended: a message whose literal *begins* with the success
marker is rewritten to an Info call whatever else (including caution
markers or keywords) the rest of the message contains: the success rule is
earliest in the table and the first matching rule governs. -/
theorem c3_success_marker_first {t c : Str}
    (htq : ∀ x ∈ t, x ≠ '"') (htp : 'p' ∉ t) (hcp : 'p' ∉ c)
    (hIL : containsSub ilLit (pqLit ++ (('✅' :: t) ++ '"' :: ')' :: c)) = false)
    (hAN : containsSub anchorLit (pqLit ++ (('✅' :: t) ++ '"' :: ')' :: c)) = false) :
    convertContent (pqLit ++ (('✅' :: t) ++ '"' :: ')' :: c)) =
      (sevStr .info ++ '(' :: '"' :: (('✅' :: t) ++ ['"', ')'])) ++ c := by
  have hsq : ∀ x ∈ ('✅' :: t), x ≠ '"' := by
    intro x hx
    rcases List.mem_cons.1 hx with rfl | hx2
    · decide
    · exact htq x hx2
  have hsp : 'p' ∉ ('✅' :: t) := by
    intro hm
    rcases List.mem_cons.1 hm with h1 | h2
    · exact absurd h1 (by decide)
    · exact htp h2
  have h : convertContent (([] : Str) ++ (pqLit ++ (('✅' :: t) ++ '"' :: ')' :: c))) =
      ([] : Str) ++ ((sevStr (classifySpec ('✅' :: t)) ++ '(' :: '"' ::
        (('✅' :: t) ++ ['"', ')'])) ++ c) :=
    convert_single_call (by decide) hsq hsp hcp hIL hAN
  have hcl : classifySpec ('✅' :: t) = .info := by
    unfold classifySpec
    rw [show isPre (("✅").toList) ('✅' :: t) = true by simp [isPre, stripP]]
    simp
  rw [hcl] at h
  simpa using h

/-- Witness for C3's amended theorem: `"✅ ok ⚠️ x"` (success marker first,
caution marker later) still classifies Info. -/
theorem c3_witness :
    convertContent (pqLit ++ (('✅' :: (" ok ⚠️ x").toList) ++ '"' :: ')' :: ([] : Str))) =
      (sevStr .info ++ '(' :: '"' :: (('✅' :: (" ok ⚠️ x").toList) ++ ['"', ')'])) ++
        ([] : Str) :=
  c3_success_marker_first (by decide) (by decide) (by decide) (by decide) (by decide)

/-- Claim C4, counterexample: the payload of a plain string literal is not
always preserved: in `print("✅ print(x) ok")` the literal's own text
contains `print(x)`, and the final fallback pass rewrites it *inside* the
already-converted call, so the emitted message differs from the original
literal. -/
theorem c4_counterexample :
    convertContent (("print(\"✅ print(x) ok\")").toList) =
        ("#logInfo(\"✅ #logDebug(x) ok\")").toList ∧
      ("#logInfo(\"✅ #logDebug(x) ok\")").toList ≠
        ("#logInfo(\"✅ print(x) ok\")").toList := by
  constructor
  · decide
  · decide

/-- Claim C4, amended: for a call whose sole argument is a plain
double-quoted literal whose content does not itself contain legacy-call
text (no `print` inside the literal), the rewritten structured call carries
the classified severity and a payload byte-identical to the original
literal content. -/
theorem c4_literal_payload_preserved {s c : Str}
    (hsq : ∀ x ∈ s, x ≠ '"') (hsp : 'p' ∉ s) (hcp : 'p' ∉ c)
    (hIL : containsSub ilLit (pqLit ++ (s ++ '"' :: ')' :: c)) = false)
    (hAN : containsSub anchorLit (pqLit ++ (s ++ '"' :: ')' :: c)) = false) :
    convertContent (pqLit ++ (s ++ '"' :: ')' :: c)) =
      (sevStr (classifySpec s) ++ '(' :: '"' :: (s ++ ['"', ')'])) ++ c := by
  have h : convertContent (([] : Str) ++ (pqLit ++ (s ++ '"' :: ')' :: c))) =
      ([] : Str) ++ ((sevStr (classifySpec s) ++ '(' :: '"' :: (s ++ ['"', ')'])) ++ c) :=
    convert_single_call (by decide) hsq hsp hcp hIL hAN
  simpa using h

/-- Witness for C4's amended theorem at the spec's example literal
`"✅ Build succeeded"`. -/
theorem c4_witness :
    convertContent (pqLit ++ ((("✅ Build succeeded").toList) ++ '"' :: ')' :: ([] : Str))) =
      (sevStr (classifySpec (("✅ Build succeeded").toList)) ++ '(' :: '"' ::
        ((("✅ Build succeeded").toList) ++ ['"', ')'])) ++ ([] : Str) :=
  c4_literal_payload_preserved (by decide) (by decide) (by decide) (by decide) (by decide)

/-- Claim C5, counterexample: the injector does not insert exactly one
declaration after the first anchor occurrence — `re.sub` replaces *every*
occurrence, so a file with two `import Foundation` lines gains two
`import LogMacro` lines. -/
theorem c5_counterexample :
    addImport (("import Foundation\nimport Foundation\n").toList) =
        ("import Foundation\nimport LogMacro\nimport Foundation\nimport LogMacro\n").toList ∧
      ("import Foundation\nimport LogMacro\nimport Foundation\nimport LogMacro\n").toList ≠
        ("import Foundation\nimport LogMacro\nimport Foundation\n").toList := by
  constructor
  · decide
  · decide

/-- Claim C5, amended: when the dependency declaration is absent, the
injector inserts one declaration line immediately after *each* occurrence
of the anchor line (hence exactly one when the anchor occurs once); when
the anchor line is absent the file text is unmodified. -/
theorem c5_injector_behaviour :
    (∀ w : Str, containsSub ilLit w = false → containsSub anchorLit w = false →
        addImport w = w) ∧
      (∀ a b : Str, 'i' ∉ a → 'i' ∉ b →
        containsSub ilLit (a ++ (anchorLit ++ b)) = false →
        addImport (a ++ (anchorLit ++ b)) = a ++ (anchorRep ++ b)) := by
  constructor
  · intro w hIL hAN
    unfold addImport
    rw [hIL, if_neg Bool.false_ne_true]
    exact subAnchor_id_of_not_contains hAN
  · intro a b ha hb hIL
    unfold addImport
    rw [hIL, if_neg Bool.false_ne_true]
    rw [subAnchor_append_ifree (fun x hx hxp => ha (hxp ▸ hx)),
      subAnchor_eq_match stripP_self,
      subAnchor_id_of_not_contains (no_anchorLit hb)]

/-- Witness for C5's amended theorem: a single anchor line followed by
declaration-free text gains exactly one declaration right after it, and an
anchor-free file is unmodified. -/
theorem c5_witness :
    addImport (([] : Str) ++ (anchorLit ++ ("let x = 1\n").toList)) =
        ([] : Str) ++ (anchorRep ++ ("let x = 1\n").toList) ∧
      addImport (("let x = 1\n").toList) = ("let x = 1\n").toList :=
  ⟨c5_injector_behaviour.2 [] (("let x = 1\n").toList) (by decide) (by decide) (by decide),
    c5_injector_behaviour.1 (("let x = 1\n").toList) (by decide) (by decide)⟩

/-- Claim C6: content outside the rewritten call site is preserved
byte-for-byte — a `print`-free, declaration-free prefix `a` and suffix `c`
around a plain-literal call pass through the whole migration unchanged
while the call itself is rewritten in place. -/
theorem c6_frame_preserved {a s c : Str}
    (hap : 'p' ∉ a) (hsq : ∀ x ∈ s, x ≠ '"') (hsp : 'p' ∉ s) (hcp : 'p' ∉ c)
    (hIL : containsSub ilLit (a ++ (pqLit ++ (s ++ '"' :: ')' :: c))) = false)
    (hAN : containsSub anchorLit (a ++ (pqLit ++ (s ++ '"' :: ')' :: c))) = false) :
    convertContent (a ++ (pqLit ++ (s ++ '"' :: ')' :: c))) =
      a ++ ((sevStr (classifySpec s) ++ '(' :: '"' :: (s ++ ['"', ')'])) ++ c) :=
  convert_single_call hap hsq hsp hcp hIL hAN

/-- Witness for C6 on a concrete file: the code line before and the text
after the call are untouched. -/
theorem c6_witness :
    convertContent ((("let x = 1\n").toList) ++
        (pqLit ++ ((("✅ ok").toList) ++ '"' :: ')' :: ("\nreturn 0\n").toList))) =
      (("let x = 1\n").toList) ++
        ((sevStr (classifySpec (("✅ ok").toList)) ++ '(' :: '"' ::
          ((("✅ ok").toList) ++ ['"', ')'])) ++ ("\nreturn 0\n").toList) :=
  c6_frame_preserved (by decide) (by decide) (by decide) (by decide) (by decide) (by decide)

/-- Claim C7, counterexample: an undecodable file does not make the walk
continue — the walk aborts at that file (completion flag `false`) and the
file after it is never processed. -/
theorem c7_counterexample :
    processFiles [some (("print(x)").toList), none, some (("print(y)").toList)] =
        ([true], false) ∧
      ¬ (processFiles [some (("print(x)").toList), none,
          some (("print(y)").toList)]).2 = true := by
  constructor
  · decide
  · decide

/-- Claim C7, amended: there is no per-file error handling — a decode
failure propagates and aborts the walk: files before the failing one are
processed, the failing one and everything after it are not, and only the
missing-root check is handled, returning before any file is touched. -/
theorem c7_decode_error_aborts :
    ∀ (pre : List Str) (post files : List (Option Str)),
      processFiles (pre.map some ++ none :: post) =
          (pre.map (fun w => (convert_file w).2), false) ∧
        runMain false files = none := by
  intro pre post files
  constructor
  · induction pre with
    | nil => rfl
    | cons w ws ih => simp [processFiles, ih]
  · rfl

/-- Claim C8: a call opened with a triple-quoted block string is rewritten
to an Info-severity call, independently of any marker symbols or keywords
inside the block content. -/
theorem c8_triple_quoted_info {body : Str} (hbp : 'p' ∉ body)
    (hIL : containsSub ilLit (tripleLit ++ (body ++ ("\"\"\")").toList)) = false)
    (hAN : containsSub anchorLit (tripleLit ++ (body ++ ("\"\"\")").toList)) = false) :
    convertContent (tripleLit ++ (body ++ ("\"\"\")").toList)) =
      (sevStr .info ++ ['(', '"', '"', '"']) ++ (body ++ ("\"\"\")").toList) := by
  have hw : addImport (tripleLit ++ (body ++ ("\"\"\")").toList)) =
      tripleLit ++ (body ++ ("\"\"\")").toList) := by
    unfold addImport
    rw [hIL, if_neg Bool.false_ne_true]
    exact subAnchor_id_of_not_contains hAN
  have htp : 'p' ∉ (body ++ ("\"\"\")").toList) := by
    intro hm
    rcases List.mem_append.1 hm with h1 | h2
    · exact hbp h1
    · exact absurd h2 (by decide)
  unfold convertContent
  rw [hw]
  exact convert_triple_pipeline htp

/-- Witness for C8 with a block content full of Error and Warning markers:
the result is still Info. -/
theorem c8_witness :
    convertContent (tripleLit ++ ((("❌ bad ⚠️ careful ✅ ok").toList) ++ ("\"\"\")").toList)) =
      (sevStr .info ++ ['(', '"', '"', '"']) ++
        ((("❌ bad ⚠️ careful ✅ ok").toList) ++ ("\"\"\")").toList) :=
  c8_triple_quoted_info (by decide) (by decide) (by decide)

/-- Claim C9: the text summary has exactly one line per distinct `count`
value; each line's `debounce → p95` pairs are exactly that group's rows
sorted ascending by debounce; and on a bench CSV with two count groups of
three rows each it emits exactly two lines of three pairs each. -/
theorem c9_text_summary_shape :
    (∀ (α : Type) (rows : List (Row α)) (l : Int × List (Int × α)),
        l ∈ benchSummary rows →
          List.Chain' (fun p q => p.1 ≤ q.1) l.2 ∧
            l.2 = (sortByDebounce (rows.filter (fun r => r.count = l.1))).map
              (fun r => (r.debounce, r.p95))) ∧
      (∀ (α : Type) (rows : List (Row α)),
        (benchSummary rows).length = ((rows.map (fun r => r.count)).dedup).length) ∧
      benchSummary demoRows =
        [ (1000, [(10, 52), (50, 12), (100, 32)])
        , (5000, [(10, 22), (50, 42), (100, 62)]) ] := by
  refine ⟨?_, ?_, ?_⟩
  · intro α rows l h
    exact benchSummary_mem h
  · intro α rows
    exact benchSummary_length rows
  · decide

/-- Witness for C9 at the first line of the demo summary. -/
theorem c9_witness :
    List.Chain' (fun p q : Int × Int => p.1 ≤ q.1) [(10, 52), (50, 12), (100, 32)] ∧
      ([(10, 52), (50, 12), (100, 32)] : List (Int × Int)) =
        (sortByDebounce (demoRows.filter (fun r => r.count = 1000))).map
          (fun r => (r.debounce, r.p95)) := by
  have h := c9_text_summary_shape.1 Int demoRows (1000, [(10, 52), (50, 12), (100, 32)])
    (by decide)
  exact h

/-- Claim C10: the empty-argument call `print()` is never rewritten (every
rule needs at least one character between the parentheses), and a file
consisting of it surrounded by `print`-free text is reported unchanged. -/
theorem c10_empty_call_unchanged {a c : Str}
    (hap : 'p' ∉ a) (hcp : 'p' ∉ c)
    (hIL : containsSub ilLit (a ++ (pLit ++ ')' :: c)) = false)
    (hAN : containsSub anchorLit (a ++ (pLit ++ ')' :: c)) = false) :
    convert_file (a ++ (pLit ++ ')' :: c)) = (a ++ (pLit ++ ')' :: c), false) := by
  have hw : addImport (a ++ (pLit ++ ')' :: c)) = a ++ (pLit ++ ')' :: c) := by
    unfold addImport
    rw [hIL, if_neg Bool.false_ne_true]
    exact subAnchor_id_of_not_contains hAN
  have hcontent : convertContent (a ++ (pLit ++ ')' :: c)) = a ++ (pLit ++ ')' :: c) := by
    unfold convertContent
    rw [hw, applyAll_append_pfree (fun x hx hxp => hap (hxp ▸ hx)),
      applyAll_empty_call hcp]
  unfold convert_file
  rw [hcontent]
  simp

/-- Witness for C10 on a small file containing only `print()` and
surrounding code. -/
theorem c10_witness :
    convert_file ((("x = 1\n").toList) ++ (pLit ++ ')' :: ("\nreturn\n").toList)) =
      ((("x = 1\n").toList) ++ (pLit ++ ')' :: ("\nreturn\n").toList), false) :=
  c10_empty_call_unchanged (by decide) (by decide) (by decide) (by decide)

end WeaveDI
